import Mathlib

/-!
Verification of the HydroBlox offline-resilience layer: the `DBManager`
import/storage engine of `src/js/metadata-explorer.js` and the service-worker
cache proxy of `src/sw.js`, shallowly embedded in Lean.

JSON values are modelled by `HB.Json`; response bodies are abstracted to the
three cases the code distinguishes (empty text, text that `JSON.parse` rejects,
and a parsed value).  Asynchronous effects are modelled by oracles inside
`HB.ImportEnv`: each `fetch` attempt, each IndexedDB transaction and each put
either succeeds or fails as the oracle dictates, and the functions below
compute the resulting control flow and store contents exactly as the source
does.  Rejected promises are `Except.error`; `undefined` results are `none`.
-/

namespace HB

/-- Association-list lookup by key (first match), used for JS objects,
IndexedDB object stores and the service-worker cache. -/
def alistGet {κ β : Type} [DecidableEq κ] : List (κ × β) → κ → Option β
  | [], _ => none
  | (k', v) :: rest, k => if k' = k then some v else alistGet rest k

/-- Association-list upsert: replace in place if the key is present
(JS property assignment and IndexedDB `put` keep the original slot),
otherwise append. -/
def alistPut {κ β : Type} [DecidableEq κ] : List (κ × β) → κ → β → List (κ × β)
  | [], k, v => [(k, v)]
  | (k', v') :: rest, k, v =>
    if k' = k then (k, v) :: rest else (k', v') :: alistPut rest k v

/-- Upsert a list of records, each keyed by `key`, left to right. -/
def putAllBy {κ β : Type} [DecidableEq κ] (key : β → κ)
    (l : List (κ × β)) (rs : List β) : List (κ × β) :=
  rs.foldl (fun acc r => alistPut acc (key r) r) l

/-- JSON values as produced by `JSON.parse` (no `undefined`, no functions). -/
inductive Json : Type where
  | null : Json
  | bool (b : Bool) : Json
  | num (n : Int) : Json
  | str (s : String) : Json
  | arr (xs : List Json) : Json
  | obj (fields : List (String × Json)) : Json

mutual

def Json.beq : Json → Json → Bool
  | .null, .null => true
  | .bool a, .bool b => a == b
  | .num a, .num b => a == b
  | .str a, .str b => a == b
  | .arr a, .arr b => Json.beqList a b
  | .obj a, .obj b => Json.beqFields a b
  | _, _ => false

def Json.beqList : List Json → List Json → Bool
  | [], [] => true
  | x :: xs, y :: ys => Json.beq x y && Json.beqList xs ys
  | _, _ => false

def Json.beqFields : List (String × Json) → List (String × Json) → Bool
  | [], [] => true
  | (k1, v1) :: xs, (k2, v2) :: ys => k1 == k2 && Json.beq v1 v2 && Json.beqFields xs ys
  | _, _ => false

end

mutual

theorem Json.eq_of_beq : (a b : Json) → Json.beq a b = true → a = b
  | .null, .null, _ => rfl
  | .bool a, .bool b, h => by
    simp only [Json.beq] at h; exact congrArg Json.bool (beq_iff_eq.mp h)
  | .num a, .num b, h => by
    simp only [Json.beq] at h; exact congrArg Json.num (beq_iff_eq.mp h)
  | .str a, .str b, h => by
    simp only [Json.beq] at h; exact congrArg Json.str (beq_iff_eq.mp h)
  | .arr a, .arr b, h => by
    simp only [Json.beq] at h; exact congrArg Json.arr (Json.eqList_of_beq a b h)
  | .obj a, .obj b, h => by
    simp only [Json.beq] at h; exact congrArg Json.obj (Json.eqFields_of_beq a b h)
  | .null, .bool _, h | .null, .num _, h | .null, .str _, h | .null, .arr _, h | .null, .obj _, h
  | .bool _, .null, h | .bool _, .num _, h | .bool _, .str _, h | .bool _, .arr _, h | .bool _, .obj _, h
  | .num _, .null, h | .num _, .bool _, h | .num _, .str _, h | .num _, .arr _, h | .num _, .obj _, h
  | .str _, .null, h | .str _, .bool _, h | .str _, .num _, h | .str _, .arr _, h | .str _, .obj _, h
  | .arr _, .null, h | .arr _, .bool _, h | .arr _, .num _, h | .arr _, .str _, h | .arr _, .obj _, h
  | .obj _, .null, h | .obj _, .bool _, h | .obj _, .num _, h | .obj _, .str _, h | .obj _, .arr _, h =>
    by simp [Json.beq] at h

theorem Json.eqList_of_beq : (a b : List Json) → Json.beqList a b = true → a = b
  | [], [], _ => rfl
  | [], _ :: _, h => by simp [Json.beqList] at h
  | _ :: _, [], h => by simp [Json.beqList] at h
  | x :: xs, y :: ys, h => by
    simp only [Json.beqList, Bool.and_eq_true] at h
    rw [Json.eq_of_beq x y h.1, Json.eqList_of_beq xs ys h.2]

theorem Json.eqFields_of_beq : (a b : List (String × Json)) → Json.beqFields a b = true → a = b
  | [], [], _ => rfl
  | [], _ :: _, h => by simp [Json.beqFields] at h
  | _ :: _, [], h => by simp [Json.beqFields] at h
  | (k1, v1) :: xs, (k2, v2) :: ys, h => by
    simp only [Json.beqFields, Bool.and_eq_true] at h
    rw [show k1 = k2 from by exact beq_iff_eq.mp h.1.1, Json.eq_of_beq v1 v2 h.1.2,
        Json.eqFields_of_beq xs ys h.2]

end

mutual

theorem Json.beq_refl : (a : Json) → Json.beq a a = true
  | .null => rfl
  | .bool a => by simp [Json.beq]
  | .num a => by simp [Json.beq]
  | .str a => by simp [Json.beq]
  | .arr a => by simp only [Json.beq]; exact Json.beqList_refl a
  | .obj a => by simp only [Json.beq]; exact Json.beqFields_refl a

theorem Json.beqList_refl : (a : List Json) → Json.beqList a a = true
  | [] => rfl
  | x :: xs => by
    simp only [Json.beqList, Bool.and_eq_true]
    exact ⟨Json.beq_refl x, Json.beqList_refl xs⟩

theorem Json.beqFields_refl : (a : List (String × Json)) → Json.beqFields a a = true
  | [] => rfl
  | (k, v) :: xs => by
    simp only [Json.beqFields, Bool.and_eq_true]
    exact ⟨⟨by simp, Json.beq_refl v⟩, Json.beqFields_refl xs⟩

end

instance : DecidableEq Json := fun a b =>
  if h : Json.beq a b = true then isTrue (Json.eq_of_beq a b h)
  else isFalse (fun he => h (he ▸ Json.beq_refl a))

/-- JS truthiness of a JSON value (`NaN` cannot arise from our `Int` numbers). -/
def Json.truthy : Json → Bool
  | .null => false
  | .bool b => b
  | .num n => n ≠ 0
  | .str s => s ≠ ""
  | .arr _ => true
  | .obj _ => true

/-- JS `typeof v === 'object'` for a parsed JSON value that is not `null`:
true exactly for objects and arrays. (`typeof null` is also `'object'`, but
every use in the source guards `null` separately with a truthiness check.) -/
def Json.isObjType : Json → Bool
  | .obj _ => true
  | .arr _ => true
  | _ => false

/-- `Array.isArray`. -/
def Json.isArray : Json → Bool
  | .arr _ => true
  | _ => false

/-- Property read `v.name` on a value that is known not to be `null`:
`undefined` (`none`) on anything that is not an object with that key. -/
def Json.getField : Json → String → Option Json
  | .obj fields, k => alistGet fields k
  | _, _ => none

/-- JS `x || d` where `x` is a possibly-absent property: the property value
if present and truthy, otherwise the default. -/
def jsOr (o : Option Json) (d : Json) : Json :=
  match o with
  | some v => if v.truthy then v else d
  | none => d

/-- JS string coercion of a value used as an object property key
(`normalizedWorkflows[workflowId] = workflow`). Strings, numbers, booleans
and null follow JS `ToString`; an array key (JS would join its elements with
commas) is collapsed to a constant, as an id that is itself an array does not
occur in the JSON data this code addresses. -/
def jsPropKey : Json → String
  | .str s => s
  | .num n => toString n
  | .bool b => cond b "true" "false"
  | .null => "null"
  | .arr _ => "<array>"
  | .obj _ => "[object Object]"

instance {ε α : Type} [DecidableEq ε] [DecidableEq α] : DecidableEq (Except ε α) := fun a b =>
  match a, b with
  | .ok x, .ok y =>
    if h : x = y then isTrue (by rw [h]) else isFalse (fun he => h (Except.ok.inj he))
  | .error x, .error y =>
    if h : x = y then isTrue (by rw [h]) else isFalse (fun he => h (Except.error.inj he))
  | .ok _, .error _ => isFalse (fun he => Except.noConfusion he)
  | .error _, .ok _ => isFalse (fun he => Except.noConfusion he)

/-! ### Retrying Fetcher (`DBManager.fetchWithRetry`, metadata-explorer.js 1023-1039) -/

/-- Response body at the granularity the importer distinguishes: empty or
whitespace-only text (`!text || text.trim() === ''`), text rejected by
`JSON.parse`, or a parsed JSON value. -/
inductive Body : Type where
  | empty : Body
  | malformed : Body
  | json (j : Json) : Body
deriving DecidableEq

/-- An HTTP response: `ok` is `response.ok` (status 200-299).  The numeric
status is only interpolated into log messages in the source and is omitted. -/
structure Response : Type where
  ok : Bool
  body : Body
deriving DecidableEq

/-- Outcome of one `fetch(url)` call: a transport failure (rejected promise)
or a settled HTTP response. -/
inductive FetchResult : Type where
  | err : FetchResult
  | resp (r : Response) : FetchResult
deriving DecidableEq

/-- The attempt at index `i` produced a successful (2xx) response. -/
def isOkResp : FetchResult → Bool
  | .resp r => r.ok
  | .err => false

/-- The attempt produced a settled HTTP response that was not 2xx. -/
def isNonOkResp : FetchResult → Bool
  | .resp r => !r.ok
  | .err => false

/-- Loop body of `fetchWithRetry`: `i` is the current attempt index (for the
oracle), the second argument is the number of attempts left.  Mirrors
`for (let i = 0; i < retries; i++)`: a 2xx response returns immediately; a
non-2xx response falls through to the next iteration (the loop can exhaust,
resolving `undefined`); a transport error rethrows only when this is the last
attempt (`i === retries - 1`).  The inter-retry delay is unobservable here. -/
def fetchWithRetryGo (oracle : Nat → FetchResult) : Nat → Nat → Except Unit (Option Response)
  | _, 0 => .ok none
  | i, r + 1 =>
    match oracle i with
    | .resp resp =>
      if resp.ok then .ok (some resp)
      else fetchWithRetryGo oracle (i + 1) r
    | .err => if r = 0 then .error () else fetchWithRetryGo oracle (i + 1) r

/-- `DBManager.fetchWithRetry(url, retries)`.  The url is abstracted into the
attempt oracle.  `.error` models the rethrown final transport error,
`.ok none` the loop exhausting without a 2xx response (the async function
returns `undefined`). -/
def fetchWithRetry (oracle : Nat → FetchResult) (retries : Nat) : Except Unit (Option Response) :=
  fetchWithRetryGo oracle 0 retries

/-! ### Persistent store records (schema from `initDB`, 741-788, and the
write paths, 1046-1288) -/

/-- `DBError` kinds a store operation can reject with: `notReady` is
`new Error('Database not initialized')`, `typeError` the TypeError thrown by
`this.db.transaction(...)` when `this.db` is `null`, `storageError` any
IndexedDB-level request/transaction failure. -/
inductive DBError : Type where
  | notReady : DBError
  | typeError : DBError
  | storageError : DBError
deriving DecidableEq

/-- Record shape written by `storeItemBatch` (1082-1092).  `Option` fields are
`undefined` when absent on the source object. -/
structure ItemRecord : Type where
  uniqueId : Json
  workflowId : Option Json
  itemName : Option Json
  timestamp : Json
  data : Json
  settings : Json
  name : Option Json
  type : Option Json
deriving DecidableEq

/-- Sanitized inline item stored inside a workflow record
(`storeWorkflows`, 1203-1225). -/
structure WfItem : Type where
  uniqueId : Option Json
  name : Option Json
  itemName : Option Json
  type : Option Json
  parameters : Json
  arguments : Json
  data : Json
  settings : Json
  status : Option Json
  results : Json
deriving DecidableEq

/-- Record shape written by `storeWorkflows` (1200-1228), keyed by `id`. -/
structure WorkflowRecord : Type where
  id : String
  name : Json
  items : List WfItem
  connections : Json
  created : Option Json
deriving DecidableEq

/-- Singleton record written by `storeAppInfo` (1268-1277); the fixed key
`'appInfo'` makes the collection an `Option`. -/
structure AppInfoRecord : Type where
  version : Json
  exportDate : Json
  name : Json
  title : Option Json
  description : Option Json
  layout : Option Json
  workflowCount : Option Json
deriving DecidableEq

/-- The three object stores of `HydroBloxExportDB`: `workflows` keyed by `id`,
`items` keyed by `uniqueId`, `appInfo` keyed by the constant `'appInfo'`. -/
structure Store : Type where
  workflows : List (String × WorkflowRecord)
  items : List (Json × ItemRecord)
  appInfo : Option AppInfoRecord
deriving DecidableEq

def emptyStore : Store := { workflows := [], items := [], appInfo := none }

/-- `DBManager` instance state: `ready` is `this.ready`, `dbOpen` is
`this.db !== null`, `itemIndex` is `this.itemIndex` (initially `null`). -/
structure DBM : Type where
  ready : Bool
  dbOpen : Bool
  store : Store
  itemIndex : Option (List Json)
deriving DecidableEq

/-- A freshly constructed `new DBManager()` backed by an empty database. -/
def dbmFresh : DBM := { ready := false, dbOpen := false, store := emptyStore, itemIndex := none }

/-- Environment of one import run: outcomes of every external effect, in the
order the source consults them.  Fetch oracles map the attempt index to that
attempt's outcome; `itemFetch` is additionally keyed by the item id appearing
in `./data/items/[id].json`.  `now` is the value `new Date().toISOString()`
would produce. -/
structure ImportEnv : Type where
  initOk : Bool
  clearOk : Bool
  indexFetch : Nat → FetchResult
  appInfoFetch : Nat → FetchResult
  appInfoPutOk : Bool
  appInfoFallbackPutOk : Bool
  workflowsFetch : Nat → FetchResult
  wfTxOk : Bool
  itemFetch : Json → Nat → FetchResult
  itemTxOk : Nat → Bool
  now : String

/-! ### Item batches (`storeItemBatch`, 1046-1158) -/

/-- The record `storeItemBatch` builds for one item (1082-1092):
`data` defaults to the whole fetched payload only when the payload has no
`data` property at all (`!== undefined`, presence-based, unlike the
truthiness-based `||` defaults of `settings` and `timestamp`). -/
def mkItemRecord (env : ImportEnv) (meta idv payload : Json) : ItemRecord :=
  { uniqueId := idv
    workflowId := meta.getField "workflowId"
    itemName := meta.getField "itemName"
    timestamp := jsOr (meta.getField "timestamp") (Json.str env.now)
    data := (payload.getField "data").getD payload
    settings := jsOr (payload.getField "settings") (Json.obj [])
    name := payload.getField "name"
    type := payload.getField "type" }

/-- One item's fetch/parse/validate path inside `storeItemBatch`'s `map`
callback (1050-1098).  `none` is the `null` the callback returns on any
failure, after bumping `loadFailedCount`: falsy metadata, falsy/absent `id`,
a fetch that throws or returns `undefined`/non-ok, empty text, a
`JSON.parse` throw, or a payload that is not of object type. -/
def processItem (env : ImportEnv) (meta : Json) : Option ItemRecord :=
  if meta.truthy = false then none
  else
    match meta.getField "id" with
    | none => none
    | some idv =>
      if idv.truthy = false then none
      else
        match fetchWithRetry (env.itemFetch idv) 2 with
        | .error _ => none
        | .ok none => none
        | .ok (some resp) =>
          if resp.ok = false then none
          else
            match resp.body with
            | .empty => none
            | .malformed => none
            | .json payload =>
              if payload.truthy && payload.isObjType then
                some (mkItemRecord env meta idv payload)
              else none

/-- Transactional tail of `storeItemBatch` (1102-1157): creating the
transaction throws a TypeError when `this.db` is `null`; with no valid item
it resolves `{succeeded: 0, failed: loadFailedCount}` without issuing a put;
otherwise each valid record is `put` and the result tallies successes.  A
request/transaction failure aborts the transaction (nothing of the batch
commits) and rejects the promise; `txOk` is that transaction's health. -/
def storeItemBatchCore (env : ImportEnv) (dbOpen txOk : Bool) (s : Store)
    (batch : List Json) : Except DBError (Nat × Nat × Store) :=
  let processed := batch.map (processItem env)
  let valid := processed.filterMap id
  let loadFailed := processed.countP (fun o => o.isNone)
  if dbOpen = false then .error .typeError
  else if valid.isEmpty then .ok (0, loadFailed, s)
  else if txOk then
    .ok (valid.length, loadFailed, { s with items := putAllBy ItemRecord.uniqueId s.items valid })
  else .error .storageError

/-- Partition of the index into batches of `batchSize = 5`, mirroring
`this.itemIndex.slice(i, i + batchSize)` with `i += batchSize` (968-969);
`chunks5_take_drop` below re-states it in exactly those terms. -/
def chunks5 : List Json → List (List Json)
  | [] => []
  | a :: b :: c :: d :: e :: rest => [a, b, c, d, e] :: chunks5 rest
  | l => [l]

/-- The batch loop of `importData` (968-983): per batch, a resolved
`storeItemBatch` adds its tallies, a rejected one is caught, counts the whole
batch as failed and pushes a diagnostic; either way the loop continues.
Returns (processedItems, failedItems, pushed errors, store). -/
def importItemsChunks (env : ImportEnv) (dbOpen : Bool) :
    List (List Json) → Nat → Store → Nat × Nat × List String × Store
  | [], _, st => (0, 0, [], st)
  | batch :: rest, i, st =>
    match storeItemBatchCore env dbOpen (env.itemTxOk i) st batch with
    | .ok (succ, fail, st1) =>
      let r := importItemsChunks env dbOpen rest (i + 5) st1
      (succ + r.1, fail + r.2.1, r.2.2.1, r.2.2.2)
    | .error _ =>
      let r := importItemsChunks env dbOpen rest (i + 5) st
      (r.1, batch.length + r.2.1,
        ("Batch " ++ toString i ++ "-" ++ toString (i + 5) ++ " failed") :: r.2.2.1, r.2.2.2)

/-! ### App info (`storeAppInfo`, 1260-1288, and the step at 858-887) -/

/-- The record `storeAppInfo` puts under the fixed key (1266-1277): the
nested `appInfo` property is preferred when truthy (`appInfo.appInfo ||
appInfo`), and each field falls back by JS `||`. -/
def mkAppInfoRecord (now : String) (j : Json) : AppInfoRecord :=
  let info := match j.getField "appInfo" with
              | some v => if v.truthy then v else j
              | none => j
  { version := jsOr (info.getField "version") (Json.str "1.0.0")
    exportDate := jsOr (info.getField "exportDate") (Json.str now)
    name := jsOr (info.getField "name") (jsOr (info.getField "title") (Json.str "HydroBlox Application"))
    title := info.getField "title"
    description := info.getField "description"
    layout := info.getField "layout"
    workflowCount := info.getField "workflowCount" }

/-- `DBManager.storeAppInfo(j)`: the executor first creates the transaction
(TypeError when `this.db` is `null`), then reads `j.appInfo` — which itself
throws when `j` is `null` — then puts the record; `putOk` is the put
request's outcome. -/
def storeAppInfoCore (dbOpen putOk : Bool) (now : String) (s : Store) (j : Json) :
    Except DBError Store :=
  if dbOpen = false then .error .typeError
  else if j = Json.null then .error .typeError
  else if putOk then .ok { s with appInfo := some (mkAppInfoRecord now j) }
  else .error .storageError

/-- The hard-coded fallback payload of `importData` (880-886). -/
def fallbackAppInfoJson (now : String) : Json :=
  Json.obj [("appInfo", Json.obj
    [("version", Json.str "1.0.0"), ("exportDate", Json.str now), ("name", Json.str "HydroBlox")])]

/-- The `catch` block of step 4 (874-887): push the warning, then await the
unprotected `storeAppInfo(fallback)`, whose rejection escapes the run. -/
def appInfoFallback (env : ImportEnv) (dbOpen : Bool) (s : Store) :
    Except DBError (Store × List String) :=
  match storeAppInfoCore dbOpen env.appInfoFallbackPutOk env.now s (fallbackAppInfoJson env.now) with
  | .ok s' => .ok (s', ["Failed to load app info"])
  | .error e => .error e

/-- Step 4 of `importData` (858-887).  The inner `try` covers fetch, parse
and the first `storeAppInfo`; on any of their failures the `catch` pushes a
warning and awaits `storeAppInfo(fallback)` — the only awaited call in the
whole run that no inner `try` protects, so its rejection escapes to the
outer catch (surfaced here as `.error`). -/
def appInfoStep (env : ImportEnv) (dbOpen : Bool) (s : Store) :
    Except DBError (Store × List String) :=
  let attempt : Except DBError Store :=
    match fetchWithRetry env.appInfoFetch 3 with
    | .error _ => .error .storageError
    | .ok none => .error .storageError
    | .ok (some r) =>
      if r.ok then
        match r.body with
        | .json j => storeAppInfoCore dbOpen env.appInfoPutOk env.now s j
        | _ => .error .storageError
      else .error .storageError
  match attempt with
  | .ok s' => .ok (s', [])
  | .error _ => appInfoFallback env dbOpen s

/-- Whether step 4 settles without an escaping exception: either the
fetch/parse/store chain succeeds outright, or the fallback put succeeds. -/
def appInfoOk (env : ImportEnv) : Bool :=
  (match fetchWithRetry env.appInfoFetch 3 with
   | .ok (some r) =>
     r.ok && (match r.body with
              | .json j => if j = Json.null then false else env.appInfoPutOk
              | _ => false)
   | _ => false) || env.appInfoFallbackPutOk

/-! ### Workflows (`storeWorkflows`, 1165-1253, and the step at 889-958) -/

/-- Sanitization of one inline item (1203-1225): `null` and non-object
entries map to `null` (filtered out afterwards); object-typed entries keep
all listed properties, with `||` defaults and `results: item.results || null`. -/
def sanitizeWfItem (it : Json) : Option WfItem :=
  if it.truthy && it.isObjType then
    some { uniqueId := it.getField "uniqueId"
           name := it.getField "name"
           itemName := it.getField "itemName"
           type := it.getField "type"
           parameters := jsOr (it.getField "parameters") (Json.obj [])
           arguments := jsOr (it.getField "arguments") (Json.obj [])
           data := jsOr (it.getField "data") (Json.arr [])
           settings := jsOr (it.getField "settings") (Json.obj [])
           status := it.getField "status"
           results := jsOr (it.getField "results") Json.null }
  else none

/-- The record one `workflowStore.put` writes (1200-1228). -/
def mkWorkflowRecord (k : String) (w : Json) : WorkflowRecord :=
  { id := k
    name := jsOr (w.getField "name") (Json.str ("Workflow " ++ k))
    items := (match w.getField "items" with
              | some (Json.arr xs) => xs
              | _ => []).filterMap sanitizeWfItem
    connections := jsOr (w.getField "connections") (Json.arr [])
    created := w.getField "created" }

/-- `DBManager.storeWorkflows(workflows)` on the importer's call path, where
the argument is already a plain keyed object (the 1172 structure re-check
passes by construction).  Entries whose value is falsy or not object-typed
are skipped with `completed++` (1187-1194); the rest are `put`.  An empty
object resolves immediately; a put failure aborts the transaction (rollback)
and rejects, which `txOk` models per call. -/
def storeWorkflowsCore (dbOpen txOk : Bool) (s : Store) (wfs : List (String × Json)) :
    Except DBError Store :=
  if dbOpen = false then .error .typeError
  else
    let recs := wfs.filterMap (fun kw =>
      if kw.2.truthy && kw.2.isObjType then some (mkWorkflowRecord kw.1 kw.2) else none)
    if recs.isEmpty then .ok s
    else if txOk then .ok { s with workflows := putAllBy WorkflowRecord.id s.workflows recs }
    else .error .storageError

/-- Case 1 of the workflows step (910-923): an array payload is folded into a
keyed object.  `workflow.id` is read without a null guard, so a `null` entry
throws a TypeError out of the `forEach` (aborting the whole step); other
entries are keyed `workflow.id || workflow.workflowId || 'workflow-' + index`
and kept only when `workflow.items` is a truthy array. -/
def normalizeArrayGo : List Json → Nat → List (String × Json) → Except DBError (List (String × Json))
  | [], _, acc => .ok acc
  | w :: rest, i, acc =>
    if w = Json.null then .error .typeError
    else
      let idv := jsOr (w.getField "id")
        (jsOr (w.getField "workflowId") (Json.str ("workflow-" ++ toString i)))
      let keep := match w.getField "items" with
                  | some it => it.truthy && it.isArray
                  | none => false
      if keep then normalizeArrayGo rest (i + 1) (alistPut acc (jsPropKey idv) w)
      else normalizeArrayGo rest (i + 1) acc

def normalizeArray (xs : List Json) : Except DBError (List (String × Json)) :=
  normalizeArrayGo xs 0 []

/-- Case 2 of the workflows step (927-942): every entry of the keyed object
is re-validated.  `workflow.items` is read without a null guard, so a `null`
value throws (aborting the step); entries with a truthy `items` array are
kept, anything else — item-shaped or unknown — is skipped. -/
def validateWorkflows : List (String × Json) → Except DBError (List (String × Json))
  | [] => .ok []
  | (k, w) :: rest =>
    if w = Json.null then .error .typeError
    else
      let keep := match w.getField "items" with
                  | some it => it.truthy && it.isArray
                  | none => false
      match validateWorkflows rest with
      | .error e => .error e
      | .ok restV => .ok (if keep then (k, w) :: restV else restV)

/-- Step 5 of `importData` (889-958): fetch, parse, reject empty/malformed
bodies and non-object payloads (`typeof workflows !== 'object'`), normalize
an array payload, validate, and persist via `storeWorkflows`.  Any failure
anywhere in the step is caught at 951: a warning is pushed, the in-memory set
degrades to empty, and the store keeps whatever was already committed. -/
def workflowsStep (env : ImportEnv) (dbOpen : Bool) (s : Store) : Store × List String :=
  let attempt : Except DBError Store :=
    match fetchWithRetry env.workflowsFetch 3 with
    | .error _ => .error .storageError
    | .ok none => .error .storageError
    | .ok (some r) =>
      if r.ok then
        match r.body with
        | .json (Json.arr xs) =>
          (match normalizeArray xs with
           | .error e => .error e
           | .ok m =>
             match validateWorkflows m with
             | .error e => .error e
             | .ok validated => storeWorkflowsCore dbOpen env.wfTxOk s validated)
        | .json (Json.obj fields) =>
          (match validateWorkflows fields with
           | .error e => .error e
           | .ok validated => storeWorkflowsCore dbOpen env.wfTxOk s validated)
        | _ => .error .storageError
      else .error .storageError
  match attempt with
  | .ok s' => (s', [])
  | .error _ => (s, ["Failed to load workflows"])

/-! ### Index step and the full run (`importData`, 796-1015) -/

/-- Step 3 of `importData` (825-856): fetch the item index; on a rethrown
fetch error, an `undefined` result, a non-ok status, an empty body, a parse
failure or a non-array payload, the catch records a warning and continues
with `this.itemIndex = []`. -/
def indexStep (env : ImportEnv) : List Json × List String :=
  match fetchWithRetry env.indexFetch 3 with
  | .error _ => ([], ["Failed to load item index"])
  | .ok none => ([], ["Failed to load item index"])
  | .ok (some r) =>
    if r.ok then
      match r.body with
      | .json (Json.arr xs) => (xs, [])
      | _ => ([], ["Failed to load item index"])
    else ([], ["Failed to load item index"])

/-- `DBManager.clearDatabase` body past the ready check (1382-1400): one
readwrite transaction clears all three stores atomically; an aborted
transaction leaves them untouched and rejects. -/
def clearDatabaseCore (dbOpen clearOk : Bool) (s : Store) : Except DBError Store :=
  if dbOpen = false then .error .typeError
  else if clearOk then .ok emptyStore
  else .error .storageError

/-- The body of `importData`'s outer `try` (812-1014), entered with
`this.ready = true`.  Step order and the continue-on-error structure follow
the source: clear (catch → warning), index (catch → empty index + warning),
app info (see `appInfoStep`; its escaping rejection reaches the outer catch,
making the run return `false`), workflows (catch → warning), then the batch
loop, a trailing warning when any items failed, and `return true`. -/
def importPipeline (env : ImportEnv) (dbOpen : Bool) (s0 : Store) :
    Bool × Store × List String :=
  let clearRes := clearDatabaseCore dbOpen env.clearOk s0
  let s1 := match clearRes with | .ok s' => s' | .error _ => s0
  let errs1 : List String :=
    match clearRes with | .ok _ => [] | .error _ => ["Warning: Failed to clear database"]
  let idxRes := indexStep env
  match appInfoStep env dbOpen s1 with
  | .error _ => (false, s1, errs1 ++ idxRes.2)
  | .ok (s2, errs3) =>
    let wfRes := workflowsStep env dbOpen s2
    if 0 < idxRes.1.length then
      let r := importItemsChunks env dbOpen (chunks5 idxRes.1) 0 wfRes.1
      let errs6 : List String :=
        if 0 < r.2.1 then ["Warning: " ++ toString r.2.1 ++ " items failed to load"] else []
      (true, r.2.2.2, errs1 ++ idxRes.2 ++ errs3 ++ wfRes.2 ++ r.2.2.1 ++ errs6)
    else (true, wfRes.1, errs1 ++ idxRes.2 ++ errs3 ++ wfRes.2)

/-- `DBManager.importData` (796-1015), returning the boolean the caller sees,
the manager state afterwards, and the run's accumulated warning list.  When
`this.ready` is false the run first awaits `initDB`: a rejected open returns
`false` before any other work; a successful open sets `ready` and the
connection.  `this.itemIndex` is assigned inside the index step, before the
only escape point, so it is updated on both pipeline outcomes. -/
def importData (env : ImportEnv) (st0 : DBM) : Bool × DBM × List String :=
  if st0.ready then
    let r := importPipeline env st0.dbOpen st0.store
    (r.1, { st0 with store := r.2.1, itemIndex := some (indexStep env).1 }, r.2.2)
  else if env.initOk then
    let st := { st0 with ready := true, dbOpen := true }
    let r := importPipeline env st.dbOpen st.store
    (r.1, { st with store := r.2.1, itemIndex := some (indexStep env).1 }, r.2.2)
  else (false, st0, [])

/-! ### Query and write operations on the manager (1260-1401) -/

/-- `getWorkflows` (1294-1314): ready check, then `getAll` on `workflows`. -/
def getWorkflowsOp (st : DBM) : Except DBError (List WorkflowRecord) :=
  if st.ready then .ok (st.store.workflows.map Prod.snd) else .error .notReady

/-- `getWorkflowItems(workflowId)` (1321-1342): ready check, then the
`workflowId` secondary index, which only indexes records whose `workflowId`
is defined and equal to the queried value. -/
def getWorkflowItemsOp (st : DBM) (wid : Json) : Except DBError (List ItemRecord) :=
  if st.ready then
    .ok ((st.store.items.filter (fun kv => decide (kv.2.workflowId = some wid))).map Prod.snd)
  else .error .notReady

/-- `getResult(uniqueId)` (1349-1369): ready check, then `get` on `items`
(`undefined`, i.e. `none`, when absent). -/
def getResultOp (st : DBM) (k : Json) : Except DBError (Option ItemRecord) :=
  if st.ready then .ok (alistGet st.store.items k) else .error .notReady

/-- `clearDatabase` (1375-1401): the one store operation outside the query
set that does perform the ready check. -/
def clearDatabaseOp (env : ImportEnv) (st : DBM) : Except DBError DBM :=
  if st.ready then
    (clearDatabaseCore st.dbOpen env.clearOk st.store).map (fun s' => { st with store := s' })
  else .error .notReady

/-- `storeAppInfo` (1260-1288): no ready check — the executor goes straight
to `this.db.transaction`. -/
def storeAppInfoOp (env : ImportEnv) (st : DBM) (j : Json) : Except DBError DBM :=
  (storeAppInfoCore st.dbOpen env.appInfoPutOk env.now st.store j).map
    (fun s' => { st with store := s' })

/-- `storeWorkflows` (1165-1253): no ready check. -/
def storeWorkflowsOp (env : ImportEnv) (st : DBM) (wfs : List (String × Json)) :
    Except DBError DBM :=
  (storeWorkflowsCore st.dbOpen env.wfTxOk st.store wfs).map (fun s' => { st with store := s' })

/-- `storeItemBatch` (1046-1158): no ready check — the item fetches run
first, then the executor's `this.db.transaction` throws on a null handle. -/
def storeItemBatchOp (env : ImportEnv) (st : DBM) (i : Nat) (batch : List Json) :
    Except DBError (Nat × Nat × DBM) :=
  (storeItemBatchCore env st.dbOpen (env.itemTxOk i) st.store batch).map
    (fun r => (r.1, r.2.1, { st with store := r.2.2 }))

/-! ### Service worker (`src/sw.js`)

Requests are modelled by their path (the origin is common to every URL the
worker sees, so `url.pathname` and the string `req.url` coincide here), the
`destination` and the `mode`.  Cached responses are keyed by absolute path;
`resolveUrl` resolves the relative precache entries against the worker's
scope the way `new Request(url)` does. -/

structure SWResponse : Type where
  body : String
deriving DecidableEq

structure SWRequest : Type where
  url : String
  destination : String
  mode : String
deriving DecidableEq

def Cache : Type := List (String × SWResponse)

def cacheMatch (c : Cache) (k : String) : Option SWResponse := alistGet c k

def cachePut (c : Cache) (k : String) (r : SWResponse) : Cache := alistPut c k r

/-- List-level string prefix test (used instead of the `String` library
functions so that every evaluation is by plain structural recursion). -/
def isPre : List Char → List Char → Bool
  | [], _ => true
  | _ :: _, [] => false
  | a :: as, b :: bs => a = b && isPre as bs

/-- `haystack.includes(needle)`. -/
def hasSubList (pat : List Char) : List Char → Bool
  | [] => pat.isEmpty
  | c :: rest => isPre pat (c :: rest) || hasSubList pat rest

def hasSub (s pat : String) : Bool := hasSubList pat.toList s.toList

/-- `url.pathname.endsWith(p)`. -/
def strEndsWith (s pat : String) : Bool := isPre pat.toList.reverse s.toList.reverse

/-- Resolution of a precache entry or `caches.match` argument against the
worker's scope (`'/'` when the app is served at the site root). -/
def resolveUrl (scope u : String) : String :=
  match u.toList with
  | '.' :: '/' :: rest => scope ++ String.mk rest
  | '/' :: _ => u
  | _ => scope ++ u

/-- The `PRECACHE_URLS` manifest (sw.js 5-28). -/
def precacheUrls : List String :=
  ["./", "./index.html", "./offline.html", "./manifest.json",
   "./js/app.js", "./js/db-manager.js",
   "./js/hydrolang/hydrolang.js", "./js/hydrolang/181.hydrolang.js",
   "./js/hydrolang/841.hydrolang.js", "./js/hydrolang/972.hydrolang.js",
   "./js/hydrolang/utils/nn.worker.js",
   "./js/hydrolang/hydrolang_functions_schema2.json",
   "./js/hydrolang/hydrolang_datasources_schema.json",
   "./styles/results.css", "./styles/data-visualizer.css", "./styles/exports.css",
   "./icons/icon-192.svg", "./icons/icon-512.svg", "./icons/maskable-icon.svg",
   "./data/app-info.json", "./data/item-index.json", "./data/workflows.json"]

/-- The install handler's precache loop (sw.js 31-54): each URL is fetched
and cached independently (`Promise.allSettled` with a per-URL catch), so one
failing asset skips only its own entry. -/
def precacheGo (scope : String) (net0 : String → Option SWResponse) :
    List String → Cache → Cache
  | [], c => c
  | u :: rest, c =>
    match net0 (resolveUrl scope u) with
    | some r => precacheGo scope net0 rest (cachePut c (resolveUrl scope u) r)
    | none => precacheGo scope net0 rest c

def installPrecache (scope : String) (net0 : String → Option SWResponse) : Cache :=
  precacheGo scope net0 precacheUrls []

/-- `isScriptOrStyle` (sw.js 78). -/
def isScriptOrStyle (req : SWRequest) : Bool :=
  (if req.destination = "script" then true else false) ||
  (if req.destination = "style" then true else false) ||
  strEndsWith req.url ".js" || strEndsWith req.url ".css"

/-- The first fetch listener (sw.js 75-105): network-first for scripts and
styles, cache-first with network fallback otherwise, and on total failure the
offline document for navigations (`caches.match('/offline.html')`, resolved
against the scope) and `undefined` for everything else.  The listener calls
`respondWith` on every event; the returned pair is (the value its response
promise settles to — `none` models resolution with `undefined`, which the
browser turns into a network error — and the cache afterwards). -/
def cacheFirstListener (scope : String) (cache : Cache) (net : String → Option SWResponse)
    (req : SWRequest) : Option SWResponse × Cache :=
  if isScriptOrStyle req then
    match net req.url with
    | some resp => (some resp, cachePut cache req.url resp)
    | none => (cacheMatch cache req.url, cache)
  else
    match cacheMatch cache req.url with
    | some c => (some c, cache)
    | none =>
      match net req.url with
      | some resp => (some resp, cachePut cache req.url resp)
      | none =>
        if req.mode = "navigate" then (cacheMatch cache (resolveUrl scope "/offline.html"), cache)
        else (none, cache)

/-- The second fetch listener (sw.js 108-128): it acts only on URLs
containing `/data/` — cache, then network, and when both fail a synthesized
`Response(JSON.stringify({}))` for `workflows.json` targets.  The outer
`Option` is whether the listener calls `respondWith` at all. -/
def dataListener (cache : Cache) (net : String → Option SWResponse) (req : SWRequest) :
    Option (Option SWResponse) :=
  if hasSub req.url "/data/" then
    some (match cacheMatch cache req.url with
          | some r => some r
          | none =>
            match net req.url with
            | some r => some r
            | none =>
              if hasSub req.url "workflows.json" then some { body := "\x7b\x7d" } else none)
  else none

/-- First-`respondWith`-wins dispatch over the registered fetch listeners:
they run in registration order and only the first `respondWith` call commits;
later calls throw `InvalidStateError` and are discarded. -/
def firstRespond : List (Option (Option SWResponse)) → Option (Option SWResponse)
  | [] => none
  | some r :: _ => some r
  | none :: rest => firstRespond rest

/-- The worker's behaviour for one fetch event: listener one (75-105) is
registered first and listener two (108-128) second.  `some payload` means a
response was committed (`payload = none` being a committed `undefined`, i.e.
a network error); `none` would mean no listener responded. -/
def swDispatch (scope : String) (cache : Cache) (net : String → Option SWResponse)
    (req : SWRequest) : Option (Option SWResponse) :=
  firstRespond [some (cacheFirstListener scope cache net req).1, dataListener cache net req]

/-! ### Association-list lemmas -/

theorem alistGet_put_self {κ β : Type} [DecidableEq κ] (l : List (κ × β)) (k : κ) (v : β) :
    alistGet (alistPut l k v) k = some v := by
  induction l with
  | nil => simp [alistPut, alistGet]
  | cons kv rest ih =>
    obtain ⟨k0, v0⟩ := kv
    by_cases h : k0 = k
    · simp [alistPut, alistGet, h]
    · simp [alistPut, alistGet, h, ih]

theorem alistGet_put_other {κ β : Type} [DecidableEq κ] (l : List (κ × β)) (k k' : κ) (v : β)
    (h : k' ≠ k) : alistGet (alistPut l k v) k' = alistGet l k' := by
  induction l with
  | nil =>
    simp only [alistPut, alistGet]
    rw [if_neg (fun he : k = k' => h he.symm)]
  | cons kv rest ih =>
    obtain ⟨k0, v0⟩ := kv
    by_cases hk : k0 = k
    · simp only [alistPut, if_pos hk, alistGet]
      rw [if_neg (fun he : k = k' => h he.symm),
          if_neg (fun he : k0 = k' => h (hk.symm.trans he).symm)]
    · by_cases hk' : k0 = k'
      · simp only [alistPut, if_neg hk, alistGet, if_pos hk']
      · simp only [alistPut, if_neg hk, alistGet, if_neg hk']
        exact ih

theorem alistPut_of_get_none {κ β : Type} [DecidableEq κ] (l : List (κ × β)) (k : κ) (v : β)
    (h : alistGet l k = none) : alistPut l k v = l ++ [(k, v)] := by
  induction l with
  | nil => simp [alistPut]
  | cons kv rest ih =>
    obtain ⟨k0, v0⟩ := kv
    simp only [alistGet] at h
    by_cases hk : k0 = k
    · simp [hk] at h
    · simp only [alistPut, if_neg hk, List.cons_append, List.cons.injEq, true_and]
      exact ih (by simpa [hk] using h)

theorem length_alistPut_of_get_none {κ β : Type} [DecidableEq κ] (l : List (κ × β)) (k : κ)
    (v : β) (h : alistGet l k = none) : (alistPut l k v).length = l.length + 1 := by
  rw [alistPut_of_get_none l k v h]; simp

theorem putAllBy_cons {κ β : Type} [DecidableEq κ] (key : β → κ) (l : List (κ × β))
    (r : β) (rest : List β) :
    putAllBy key l (r :: rest) = putAllBy key (alistPut l (key r) r) rest := rfl

theorem putAllBy_get_of_not_mem {κ β : Type} [DecidableEq κ] (key : β → κ) :
    ∀ (rs : List β) (l : List (κ × β)) (k : κ), (∀ r ∈ rs, key r ≠ k) →
      alistGet (putAllBy key l rs) k = alistGet l k := by
  intro rs
  induction rs with
  | nil => intro l k _; rfl
  | cons r rest ih =>
    intro l k h
    rw [putAllBy_cons, ih _ k (fun r' hr' => h r' (List.mem_cons_of_mem _ hr'))]
    exact alistGet_put_other l (key r) k r (h r (List.mem_cons_self r rest)).symm

theorem putAllBy_get_mem {κ β : Type} [DecidableEq κ] (key : β → κ) :
    ∀ (rs : List β) (l : List (κ × β)) (r : β), (rs.map key).Nodup → r ∈ rs →
      alistGet (putAllBy key l rs) (key r) = some r := by
  intro rs
  induction rs with
  | nil => intro l r _ hr; cases hr
  | cons r0 rest ih =>
    intro l r hnd hr
    simp only [List.map_cons, List.nodup_cons] at hnd
    rw [putAllBy_cons]
    rcases List.mem_cons.mp hr with he | hm
    · subst he
      rw [putAllBy_get_of_not_mem key rest _ (key r)
        (fun r' hr' hk => hnd.1 (hk ▸ List.mem_map_of_mem key hr'))]
      exact alistGet_put_self l (key r) r
    · exact ih _ r hnd.2 hm

theorem putAllBy_length {κ β : Type} [DecidableEq κ] (key : β → κ) :
    ∀ (rs : List β) (l : List (κ × β)), (rs.map key).Nodup →
      (∀ r ∈ rs, alistGet l (key r) = none) →
      (putAllBy key l rs).length = l.length + rs.length := by
  intro rs
  induction rs with
  | nil => intro l _ _; rfl
  | cons r0 rest ih =>
    intro l hnd hdisj
    simp only [List.map_cons, List.nodup_cons] at hnd
    rw [putAllBy_cons]
    rw [ih _ hnd.2 (fun r hr => by
      rw [alistGet_put_other l (key r0) (key r) r0
        (fun he => hnd.1 (he ▸ List.mem_map_of_mem key hr))]
      exact hdisj r (List.mem_cons_of_mem _ hr))]
    rw [length_alistPut_of_get_none l (key r0) r0 (hdisj r0 (List.mem_cons_self r0 rest))]
    simp only [List.length_cons]
    omega

theorem putAllBy_nil_nodup {κ β : Type} [DecidableEq κ] (key : β → κ)
    (rs : List β) (hnd : (rs.map key).Nodup) :
    putAllBy key [] rs = rs.map (fun r => (key r, r)) := by
  have h : ∀ (rs : List β), (rs.map key).Nodup →
      ∀ l : List (κ × β), (∀ r ∈ rs, alistGet l (key r) = none) →
      putAllBy key l rs = l ++ rs.map (fun r => (key r, r)) := by
    intro rs
    induction rs with
    | nil => intro _ l _; simp [putAllBy]
    | cons r0 rest ih =>
      intro hnd l hdisj
      simp only [List.map_cons, List.nodup_cons] at hnd
      rw [putAllBy_cons]
      rw [ih hnd.2 _ (fun r hr => by
        rw [alistGet_put_other l (key r0) (key r) r0
          (fun he => hnd.1 (he ▸ List.mem_map_of_mem key hr))]
        exact hdisj r (List.mem_cons_of_mem _ hr))]
      rw [alistPut_of_get_none l (key r0) r0 (hdisj r0 (List.mem_cons_self r0 rest))]
      simp
  simpa using h rs hnd [] (by intro r _; rfl)

/-! ### Lemmas about `fetchWithRetry` -/

theorem fetchWithRetryGo_err (oracle : Nat → FetchResult) :
    ∀ (rem i : Nat), 0 < rem → (∀ k, k < rem → isOkResp (oracle (i + k)) = false) →
      oracle (i + (rem - 1)) = FetchResult.err →
      fetchWithRetryGo oracle i rem = .error () := by
  intro rem
  induction rem with
  | zero => intro i h; omega
  | succ r ih =>
    intro i _ h hl
    by_cases hz : r = 0
    · subst hz
      simp only [Nat.add_sub_cancel, Nat.add_zero] at hl
      simp [fetchWithRetryGo, hl]
    · have h0 := h 0 (by omega)
      simp only [Nat.add_zero] at h0
      cases ho : oracle i with
      | err =>
        simp only [fetchWithRetryGo, ho]
        rw [if_neg hz]
        exact ih (i + 1) (by omega)
          (fun k hk => by rw [show i + 1 + k = i + (k + 1) by omega]; exact h (k + 1) (by omega))
          (by rw [show i + 1 + (r - 1) = i + (r + 1 - 1) by omega]; exact hl)
      | resp resp =>
        have : resp.ok = false := by simpa [isOkResp, ho] using h0
        simp only [fetchWithRetryGo, ho, this, Bool.false_eq_true, if_false]
        exact ih (i + 1) (by omega)
          (fun k hk => by rw [show i + 1 + k = i + (k + 1) by omega]; exact h (k + 1) (by omega))
          (by rw [show i + 1 + (r - 1) = i + (r + 1 - 1) by omega]; exact hl)

theorem fetchWithRetryGo_ok (oracle : Nat → FetchResult) (r : Response) (hr : r.ok = true) :
    ∀ (j i rem : Nat), j < rem → (∀ k, k < j → isOkResp (oracle (i + k)) = false) →
      oracle (i + j) = FetchResult.resp r →
      fetchWithRetryGo oracle i rem = .ok (some r) := by
  intro j
  induction j with
  | zero =>
    intro i rem hlt _ ho
    simp only [Nat.add_zero] at ho
    cases rem with
    | zero => omega
    | succ rr => simp [fetchWithRetryGo, ho, hr]
  | succ j' ih =>
    intro i rem hlt hk ho
    have h0 := hk 0 (by omega)
    simp only [Nat.add_zero] at h0
    cases rem with
    | zero => omega
    | succ rr =>
      cases hoi : oracle i with
      | err =>
        simp only [fetchWithRetryGo, hoi]
        rw [if_neg (by omega)]
        exact ih (i + 1) rr (by omega)
          (fun k hkk => by rw [show i + 1 + k = i + (k + 1) by omega]; exact hk (k + 1) (by omega))
          (by rw [show i + 1 + j' = i + (j' + 1) by omega]; exact ho)
      | resp resp =>
        have hof : resp.ok = false := by simpa [isOkResp, hoi] using h0
        simp only [fetchWithRetryGo, hoi, hof, Bool.false_eq_true, if_false]
        exact ih (i + 1) rr (by omega)
          (fun k hkk => by rw [show i + 1 + k = i + (k + 1) by omega]; exact hk (k + 1) (by omega))
          (by rw [show i + 1 + j' = i + (j' + 1) by omega]; exact ho)

theorem fetchWithRetryGo_none (oracle : Nat → FetchResult) :
    ∀ (rem i : Nat), (∀ k, k < rem → isNonOkResp (oracle (i + k)) = true) →
      fetchWithRetryGo oracle i rem = .ok none := by
  intro rem
  induction rem with
  | zero => intro i _; rfl
  | succ r ih =>
    intro i h
    have h0 := h 0 (by omega)
    simp only [Nat.add_zero] at h0
    cases ho : oracle i with
    | err => simp [isNonOkResp, ho] at h0
    | resp resp =>
      have hof : resp.ok = false := by
        rw [ho] at h0; simpa [isNonOkResp] using h0
      simp only [fetchWithRetryGo, ho, hof, Bool.false_eq_true, if_false]
      exact ih (i + 1)
        (fun k hk => by rw [show i + 1 + k = i + (k + 1) by omega]; exact h (k + 1) (by omega))

/-! ### Lemmas about the batch loop -/

theorem chunks5_flatten : ∀ l : List Json, (chunks5 l).flatten = l
  | [] => rfl
  | [a] => rfl
  | [a, b] => rfl
  | [a, b, c] => rfl
  | [a, b, c, d] => rfl
  | a :: b :: c :: d :: e :: rest => by
    simp only [chunks5, List.flatten_cons, List.cons_append, List.nil_append,
      chunks5_flatten rest]

/-- `chunks5` is exactly the `slice(i, i + batchSize)` loop of the source. -/
theorem chunks5_take_drop (l : List Json) (h : l ≠ []) :
    chunks5 l = l.take 5 :: chunks5 (l.drop 5) := by
  match l with
  | [] => exact absurd rfl h
  | [a] => rfl
  | [a, b] => rfl
  | [a, b, c] => rfl
  | [a, b, c, d] => rfl
  | a :: b :: c :: d :: e :: rest => rfl

theorem length_filterMap_eq_countP {α β : Type} (f : α → Option β) (l : List α) :
    (l.filterMap f).length = l.countP (fun a => (f a).isSome) := by
  induction l with
  | nil => rfl
  | cons a rest ih =>
    cases hf : f a with
    | none => simp [List.filterMap_cons, hf, List.countP_cons, ih]
    | some b => simp [List.filterMap_cons, hf, List.countP_cons, ih]

theorem storeItemBatchCore_tx_ok (env : ImportEnv) (s : Store) (batch : List Json) :
    storeItemBatchCore env true true s batch =
      .ok (batch.countP (fun m => (processItem env m).isSome),
           batch.countP (fun m => (processItem env m).isNone),
           { s with items := putAllBy ItemRecord.uniqueId s.items
                              (batch.filterMap (processItem env)) }) := by
  have hmap : (batch.map (processItem env)).filterMap id = batch.filterMap (processItem env) := by
    rw [List.filterMap_map]; rfl
  have hcnt : (batch.map (processItem env)).countP (fun o => o.isNone) =
      batch.countP (fun m => (processItem env m).isNone) := by
    rw [List.countP_map]; rfl
  have hlen : (batch.filterMap (processItem env)).length =
      batch.countP (fun m => (processItem env m).isSome) :=
    length_filterMap_eq_countP _ _
  simp only [storeItemBatchCore, hmap, hcnt]
  by_cases he : batch.filterMap (processItem env) = []
  · have h0 : batch.countP (fun m => (processItem env m).isSome) = 0 := by
      rw [← hlen, he]; rfl
    simp [he, h0, putAllBy]
  · simp [List.isEmpty_iff, he, hlen]

theorem importItemsChunks_all_ok (env : ImportEnv)
    (htx : ∀ k, env.itemTxOk k = true) :
    ∀ (chs : List (List Json)) (i : Nat) (st : Store),
      importItemsChunks env true chs i st =
        (chs.flatten.countP (fun m => (processItem env m).isSome),
         chs.flatten.countP (fun m => (processItem env m).isNone),
         [],
         { st with items := putAllBy ItemRecord.uniqueId st.items
                              (chs.flatten.filterMap (processItem env)) }) := by
  intro chs
  induction chs with
  | nil =>
    intro i st
    simp [importItemsChunks, putAllBy]
  | cons batch rest ih =>
    intro i st
    simp only [importItemsChunks, htx i, storeItemBatchCore_tx_ok, ih, List.flatten_cons,
      List.countP_append, List.filterMap_append, putAllBy, List.foldl_append]

/-! ### Lemmas about the pipeline steps -/

theorem storeAppInfoCore_items (dbOpen putOk : Bool) (now : String) (s : Store) (j : Json)
    (s' : Store) (h : storeAppInfoCore dbOpen putOk now s j = .ok s') :
    s'.items = s.items ∧ s'.workflows = s.workflows := by
  unfold storeAppInfoCore at h
  split at h
  · cases h
  · split at h
    · cases h
    · split at h
      · cases h; exact ⟨rfl, rfl⟩
      · cases h

theorem appInfoFallback_items (env : ImportEnv) (d : Bool) (s s' : Store) (errs : List String)
    (h : appInfoFallback env d s = .ok (s', errs)) :
    s'.items = s.items ∧ s'.workflows = s.workflows := by
  unfold appInfoFallback at h
  rcases hsc : storeAppInfoCore d env.appInfoFallbackPutOk env.now s (fallbackAppInfoJson env.now)
    with e | s2
  · simp [hsc] at h
  · simp only [hsc, Except.ok.injEq, Prod.mk.injEq] at h
    rw [← h.1]
    exact storeAppInfoCore_items _ _ _ _ _ _ hsc

theorem appInfoStep_items (env : ImportEnv) (d : Bool) (s s' : Store) (errs : List String)
    (h : appInfoStep env d s = .ok (s', errs)) :
    s'.items = s.items ∧ s'.workflows = s.workflows := by
  unfold appInfoStep at h
  rcases hf : fetchWithRetry env.appInfoFetch 3 with e | o
  · simp only [hf] at h
    exact appInfoFallback_items env d s s' errs h
  · rcases o with _ | r
    · simp only [hf] at h
      exact appInfoFallback_items env d s s' errs h
    · simp only [hf] at h
      by_cases hok : r.ok = true
      · rw [if_pos hok] at h
        cases hb : r.body with
        | empty =>
          rw [hb] at h
          exact appInfoFallback_items env d s s' errs h
        | malformed =>
          rw [hb] at h
          exact appInfoFallback_items env d s s' errs h
        | json j =>
          rw [hb] at h
          rcases hsc : storeAppInfoCore d env.appInfoPutOk env.now s j with e2 | s2
          · simp only [hsc] at h
            exact appInfoFallback_items env d s s' errs h
          · simp only [hsc, Except.ok.injEq, Prod.mk.injEq] at h
            rw [← h.1]
            exact storeAppInfoCore_items _ _ _ _ _ _ hsc
      · rw [if_neg hok] at h
        exact appInfoFallback_items env d s s' errs h

theorem storeAppInfoCore_fallback_true (env : ImportEnv) (s : Store) :
    storeAppInfoCore true true env.now s (fallbackAppInfoJson env.now) =
      .ok { s with appInfo := some (mkAppInfoRecord env.now (fallbackAppInfoJson env.now)) } := by
  unfold storeAppInfoCore fallbackAppInfoJson
  simp

theorem storeAppInfoCore_fallback_false (env : ImportEnv) (s : Store) :
    storeAppInfoCore true false env.now s (fallbackAppInfoJson env.now) =
      .error .storageError := by
  unfold storeAppInfoCore fallbackAppInfoJson
  simp

theorem appInfoFallback_ok_iff (env : ImportEnv) (s : Store) :
    (∃ p, appInfoFallback env true s = .ok p) ↔ env.appInfoFallbackPutOk = true := by
  unfold appInfoFallback
  cases hp : env.appInfoFallbackPutOk with
  | true =>
    rw [storeAppInfoCore_fallback_true]
    simp
  | false =>
    rw [storeAppInfoCore_fallback_false]
    simp

theorem appInfoStep_ok_iff (env : ImportEnv) (s : Store) :
    (∃ p, appInfoStep env true s = .ok p) ↔ appInfoOk env = true := by
  unfold appInfoStep appInfoOk
  rcases hf : fetchWithRetry env.appInfoFetch 3 with e | o
  · simpa using appInfoFallback_ok_iff env s
  · rcases o with _ | r
    · simpa using appInfoFallback_ok_iff env s
    · obtain ⟨rok, rbody⟩ := r
      cases rok with
      | false => simpa using appInfoFallback_ok_iff env s
      | true =>
        cases rbody with
        | empty => simpa using appInfoFallback_ok_iff env s
        | malformed => simpa using appInfoFallback_ok_iff env s
        | json j =>
          by_cases hj : j = Json.null
          · subst hj
            have hsc : storeAppInfoCore true env.appInfoPutOk env.now s Json.null =
                .error .typeError := by
              unfold storeAppInfoCore
              simp
            simpa [hsc] using appInfoFallback_ok_iff env s
          · cases hput : env.appInfoPutOk with
            | true =>
              have hsc : storeAppInfoCore true true env.now s j =
                  .ok { s with appInfo := some (mkAppInfoRecord env.now j) } := by
                unfold storeAppInfoCore
                simp [hj]
              simp [hsc, hj]
            | false =>
              have hsc : storeAppInfoCore true false env.now s j =
                  .error .storageError := by
                unfold storeAppInfoCore
                simp [hj]
              simpa [hsc, hj] using appInfoFallback_ok_iff env s

theorem storeWorkflowsCore_items (dbOpen txOk : Bool) (s : Store) (wfs : List (String × Json))
    (s' : Store) (h : storeWorkflowsCore dbOpen txOk s wfs = .ok s') :
    s'.items = s.items ∧ s'.appInfo = s.appInfo := by
  unfold storeWorkflowsCore at h
  by_cases hd : dbOpen = false
  · simp only [if_pos hd] at h
    cases h
  · simp only [if_neg hd] at h
    by_cases he : (wfs.filterMap (fun kw =>
        if kw.2.truthy && kw.2.isObjType then some (mkWorkflowRecord kw.1 kw.2)
        else none)).isEmpty = true
    · simp only [if_pos he] at h
      cases h
      exact ⟨rfl, rfl⟩
    · simp only [if_neg he] at h
      by_cases ht : txOk = true
      · simp only [if_pos ht] at h
        cases h
        exact ⟨rfl, rfl⟩
      · simp only [if_neg ht] at h
        cases h

theorem workflowsStep_items (env : ImportEnv) (d : Bool) (s : Store) :
    (workflowsStep env d s).1.items = s.items ∧ (workflowsStep env d s).1.appInfo = s.appInfo := by
  unfold workflowsStep
  rcases hatt : (match fetchWithRetry env.workflowsFetch 3 with
    | .error _ => (.error .storageError : Except DBError Store)
    | .ok none => .error .storageError
    | .ok (some r) =>
      if r.ok then
        match r.body with
        | .json (Json.arr xs) =>
          (match normalizeArray xs with
           | .error e => .error e
           | .ok m =>
             match validateWorkflows m with
             | .error e => .error e
             | .ok validated => storeWorkflowsCore d env.wfTxOk s validated)
        | .json (Json.obj fields) =>
          (match validateWorkflows fields with
           | .error e => .error e
           | .ok validated => storeWorkflowsCore d env.wfTxOk s validated)
        | _ => .error .storageError
      else .error .storageError) with e | s2
  · rw [hatt]
    exact ⟨rfl, rfl⟩
  · rw [hatt]
    rcases hf : fetchWithRetry env.workflowsFetch 3 with e | o
    · simp only [hf] at hatt; cases hatt
    · rcases o with _ | r
      · simp only [hf] at hatt; cases hatt
      · simp only [hf] at hatt
        by_cases hok : r.ok = true
        · rw [if_pos hok] at hatt
          cases hb : r.body with
          | empty => simp only [hb] at hatt; cases hatt
          | malformed => simp only [hb] at hatt; cases hatt
          | json j =>
            simp only [hb] at hatt
            cases j with
            | arr xs =>
              rcases hn : normalizeArray xs with e2 | m
              · simp only [hn] at hatt; cases hatt
              · simp only [hn] at hatt
                rcases hv : validateWorkflows m with e3 | validated
                · simp only [hv] at hatt; cases hatt
                · simp only [hv] at hatt
                  exact storeWorkflowsCore_items d env.wfTxOk s validated s2 hatt
            | obj fields =>
              rcases hv : validateWorkflows fields with e3 | validated
              · simp only [hv] at hatt; cases hatt
              · simp only [hv] at hatt
                exact storeWorkflowsCore_items d env.wfTxOk s validated s2 hatt
            | null => simp at hatt
            | bool b => simp at hatt
            | num n => simp at hatt
            | str sv => simp at hatt
        · rw [if_neg hok] at hatt; cases hatt

/-! ### Lemmas about the pipeline and `importData` -/

theorem clearDatabaseCore_true (s : Store) :
    clearDatabaseCore true true s = .ok emptyStore := rfl

theorem importPipeline_fst (env : ImportEnv) (s : Store) :
    (importPipeline env true s).1 = appInfoOk env := by
  unfold importPipeline
  rcases ha : appInfoStep env true
      (match clearDatabaseCore true env.clearOk s with | .ok s' => s' | .error _ => s)
    with e | p
  · simp only [ha]
    have : ¬ appInfoOk env = true := by
      intro hOk
      obtain ⟨p, hp⟩ := (appInfoStep_ok_iff env _).mpr hOk
      rw [ha] at hp
      cases hp
    simp only [Bool.not_eq_true] at this
    simp [this]
  · obtain ⟨s2, errs3⟩ := p
    have : appInfoOk env = true := (appInfoStep_ok_iff env _).mp ⟨(s2, errs3), ha⟩
    simp only [ha, this]
    split <;> rfl

theorem importPipeline_clear_const (env : ImportEnv) (hclear : env.clearOk = true)
    (s s' : Store) : importPipeline env true s = importPipeline env true s' := by
  unfold importPipeline
  rw [hclear, clearDatabaseCore_true, clearDatabaseCore_true]

theorem importData_state (env : ImportEnv) (st : DBM)
    (hinit : st.ready = true ∨ env.initOk = true)
    (hwf : st.ready = true → st.dbOpen = true) :
    (importData env st).2.1.ready = true ∧ (importData env st).2.1.dbOpen = true ∧
      (importData env st).2.1.store = (importPipeline env true st.store).2.1 ∧
      (importData env st).1 = (importPipeline env true st.store).1 ∧
      (importData env st).2.2 = (importPipeline env true st.store).2.2 := by
  cases hr : st.ready with
  | true =>
    have hd := hwf hr
    simp [importData, hr, hd]
  | false =>
    cases hi : env.initOk with
    | true => simp [importData, hr, hi]
    | false =>
      rcases hinit with h | h
      · rw [hr] at h; cases h
      · rw [hi] at h; cases h

/-! ### Amended specification of the array-normalization rule (for claim C4)

These three definitions restate the spec sentence, corrected only where the
counterexample forces it: the key falls back to the entry's truthy
`workflowId` before the synthesized `"workflow-" + index`. -/

/-- An array entry is a workflow iff it carries a truthy `items` array. -/
def arrayEntryValid (w : Json) : Bool :=
  match w.getField "items" with
  | some it => it.truthy && it.isArray
  | none => false

/-- Key of the array entry at position `i`: its truthy `id`, else its truthy
`workflowId`, else `"workflow-" + i`. -/
def arrayEntryKey (i : Nat) (w : Json) : String :=
  jsPropKey (jsOr (w.getField "id")
    (jsOr (w.getField "workflowId") (Json.str ("workflow-" ++ toString i))))

/-- The mapping the amended spec predicts for an array payload starting at
position `i`: one entry per valid element, keyed by `arrayEntryKey`. -/
def normalizedArraySpec : List Json → Nat → List (String × Json)
  | [], _ => []
  | w :: rest, i =>
    if arrayEntryValid w then (arrayEntryKey i w, w) :: normalizedArraySpec rest (i + 1)
    else normalizedArraySpec rest (i + 1)

theorem normalizedArraySpec_entries : ∀ (xs : List Json) (i : Nat),
    ∀ kv ∈ normalizedArraySpec xs i, kv.2 ∈ xs ∧ arrayEntryValid kv.2 = true := by
  intro xs
  induction xs with
  | nil => intro i kv h; cases h
  | cons w rest ih =>
    intro i kv h
    unfold normalizedArraySpec at h
    by_cases hv : arrayEntryValid w = true
    · rw [if_pos hv] at h
      rcases List.mem_cons.mp h with he | hm
      · subst he
        exact ⟨List.mem_cons_self _ _, hv⟩
      · obtain ⟨h1, h2⟩ := ih (i + 1) kv hm
        exact ⟨List.mem_cons_of_mem _ h1, h2⟩
    · rw [if_neg hv] at h
      obtain ⟨h1, h2⟩ := ih (i + 1) kv h
      exact ⟨List.mem_cons_of_mem _ h1, h2⟩

theorem normalizeArrayGo_spec : ∀ (xs : List Json) (i : Nat) (acc : List (String × Json)),
    (∀ w ∈ xs, w ≠ Json.null) →
    (∀ kv ∈ normalizedArraySpec xs i, alistGet acc kv.1 = none) →
    ((normalizedArraySpec xs i).map Prod.fst).Nodup →
    normalizeArrayGo xs i acc = .ok (acc ++ normalizedArraySpec xs i) := by
  intro xs
  induction xs with
  | nil => intro i acc _ _ _; simp [normalizeArrayGo, normalizedArraySpec]
  | cons w rest ih =>
    intro i acc hnn hdisj hnd
    unfold normalizeArrayGo
    rw [if_neg (hnn w (List.mem_cons_self w rest))]
    have hkeep : (match w.getField "items" with
        | some it => it.truthy && it.isArray
        | none => false) = arrayEntryValid w := rfl
    by_cases hv : arrayEntryValid w = true
    · have hkey : jsPropKey (jsOr (w.getField "id")
          (jsOr (w.getField "workflowId") (Json.str ("workflow-" ++ toString i)))) =
          arrayEntryKey i w := rfl
      simp only [hkeep, hv, if_true, hkey]
      have hspec : normalizedArraySpec (w :: rest) i =
          (arrayEntryKey i w, w) :: normalizedArraySpec rest (i + 1) := by
        show (if arrayEntryValid w then (arrayEntryKey i w, w) :: normalizedArraySpec rest (i + 1)
              else normalizedArraySpec rest (i + 1)) = _
        rw [if_pos hv]
      rw [hspec] at hdisj hnd
      simp only [List.map_cons, List.nodup_cons] at hnd
      rw [ih (i + 1) (alistPut acc (arrayEntryKey i w) w)
        (fun w' hw' => hnn w' (List.mem_cons_of_mem _ hw'))
        (fun kv hkv => by
          rw [alistGet_put_other acc (arrayEntryKey i w) kv.1 w
            (fun he => hnd.1 (he ▸ List.mem_map_of_mem Prod.fst hkv))]
          exact hdisj kv (List.mem_cons_of_mem _ hkv))
        hnd.2]
      rw [alistPut_of_get_none acc _ w (hdisj _ (List.mem_cons_self _ _)), hspec]
      simp
    · simp only [hkeep, hv, if_false]
      have hspec : normalizedArraySpec (w :: rest) i = normalizedArraySpec rest (i + 1) := by
        show (if arrayEntryValid w then (arrayEntryKey i w, w) :: normalizedArraySpec rest (i + 1)
              else normalizedArraySpec rest (i + 1)) = _
        rw [if_neg hv]
      rw [hspec] at hdisj hnd
      rw [ih (i + 1) acc (fun w' hw' => hnn w' (List.mem_cons_of_mem _ hw')) hdisj hnd, hspec]
      simp

theorem validateWorkflows_of_all_valid : ∀ (m : List (String × Json)),
    (∀ kv ∈ m, kv.2 ≠ Json.null ∧ arrayEntryValid kv.2 = true) →
    validateWorkflows m = .ok m := by
  intro m
  induction m with
  | nil => intro _; rfl
  | cons kv rest ih =>
    intro h
    obtain ⟨k, w⟩ := kv
    obtain ⟨hn, hv⟩ := h (k, w) (List.mem_cons_self _ _)
    simp only [validateWorkflows]
    rw [if_neg hn, ih (fun kv2 h2 => h kv2 (List.mem_cons_of_mem _ h2))]
    have hkeep : (match w.getField "items" with
        | some it => it.truthy && it.isArray
        | none => false) = arrayEntryValid w := rfl
    simp only [hkeep, hv, if_true]

theorem arrayEntryValid_objType (w : Json) (h : arrayEntryValid w = true) :
    (w.truthy && w.isObjType) = true := by
  cases w with
  | obj fields => rfl
  | null => simp [arrayEntryValid, Json.getField] at h
  | bool b => simp [arrayEntryValid, Json.getField] at h
  | num n => simp [arrayEntryValid, Json.getField] at h
  | str sv => simp [arrayEntryValid, Json.getField] at h
  | arr xs => simp [arrayEntryValid, Json.getField] at h

theorem filterMap_eq_map_of_all {α β : Type} (f : α → Option β) (g : α → β) :
    ∀ l : List α, (∀ a ∈ l, f a = some (g a)) → l.filterMap f = l.map g := by
  intro l
  induction l with
  | nil => intro _; rfl
  | cons a rest ih =>
    intro h
    rw [List.filterMap_cons, h a (List.mem_cons_self _ _), List.map_cons,
      ih (fun a2 h2 => h a2 (List.mem_cons_of_mem _ h2))]

theorem storeWorkflowsCore_of_valid (s : Store) (m : List (String × Json))
    (hval : ∀ kv ∈ m, arrayEntryValid kv.2 = true)
    (hnd : (m.map Prod.fst).Nodup)
    (hs : s.workflows = []) :
    storeWorkflowsCore true true s m =
      .ok { s with workflows := m.map (fun kv => (kv.1, mkWorkflowRecord kv.1 kv.2)) } := by
  unfold storeWorkflowsCore
  have hrecs : m.filterMap (fun kw =>
      if kw.2.truthy && kw.2.isObjType then some (mkWorkflowRecord kw.1 kw.2) else none) =
      m.map (fun kw => mkWorkflowRecord kw.1 kw.2) := by
    apply filterMap_eq_map_of_all
    intro kv hkv
    rw [if_pos (arrayEntryValid_objType kv.2 (hval kv hkv))]
  rw [if_neg (by simp)]
  simp only [hrecs]
  by_cases hm : m = []
  · subst hm
    simp only [List.map_nil, List.isEmpty_nil, if_true]
    exact congrArg Except.ok (by rw [← hs])
  · rw [if_neg (by simpa using hm)]
    have hput : putAllBy WorkflowRecord.id s.workflows
        (m.map (fun kw => mkWorkflowRecord kw.1 kw.2)) =
        (m.map (fun kw => mkWorkflowRecord kw.1 kw.2)).map (fun r => (r.id, r)) := by
      rw [hs, putAllBy_nil_nodup WorkflowRecord.id _ (by rw [List.map_map]; exact hnd)]
    simp only [hput, List.map_map]
    rfl

theorem workflowsStep_array (env : ImportEnv) (s : Store) (xs : List Json)
    (hf : fetchWithRetry env.workflowsFetch 3 =
      .ok (some { ok := true, body := .json (Json.arr xs) }))
    (hnn : ∀ w ∈ xs, w ≠ Json.null)
    (hnd : ((normalizedArraySpec xs 0).map Prod.fst).Nodup)
    (htx : env.wfTxOk = true)
    (hs : s.workflows = []) :
    workflowsStep env true s =
      ({ s with workflows := ((normalizedArraySpec xs 0).map
          (fun kv => (kv.1, mkWorkflowRecord kv.1 kv.2))) }, []) := by
  have hnorm : normalizeArray xs = .ok (normalizedArraySpec xs 0) := by
    unfold normalizeArray
    rw [normalizeArrayGo_spec xs 0 [] hnn (fun kv _ => rfl) hnd]
    rfl
  have hvalid : validateWorkflows (normalizedArraySpec xs 0) = .ok (normalizedArraySpec xs 0) :=
    validateWorkflows_of_all_valid _ (fun kv hkv => by
      obtain ⟨hmem, hv⟩ := normalizedArraySpec_entries xs 0 kv hkv
      exact ⟨hnn kv.2 hmem, hv⟩)
  have hstore := storeWorkflowsCore_of_valid s (normalizedArraySpec xs 0)
    (fun kv hkv => (normalizedArraySpec_entries xs 0 kv hkv).2) hnd hs
  unfold workflowsStep
  simp only [htx, hf, hnorm, hvalid, hstore, if_true]

/-! ### Lemmas about the precache (for claim C7) -/

theorem precacheGo_append (scope : String) (net0 : String → Option SWResponse)
    (l1 l2 : List String) : ∀ c : Cache,
    precacheGo scope net0 (l1 ++ l2) c = precacheGo scope net0 l2 (precacheGo scope net0 l1 c) := by
  induction l1 with
  | nil => intro c; rfl
  | cons u rest ih =>
    intro c
    cases h0 : net0 (resolveUrl scope u) with
    | some r => simp only [List.cons_append, precacheGo, h0]; exact ih _
    | none => simp only [List.cons_append, precacheGo, h0]; exact ih _

theorem precacheGo_get_of_not_mem (scope : String) (net0 : String → Option SWResponse) :
    ∀ (urls : List String) (c : Cache) (k : String),
    (∀ u ∈ urls, resolveUrl scope u ≠ k) →
    alistGet (precacheGo scope net0 urls c) k = alistGet c k := by
  intro urls
  induction urls with
  | nil => intro c k _; rfl
  | cons u rest ih =>
    intro c k h
    cases h0 : net0 (resolveUrl scope u) with
    | some r =>
      simp only [precacheGo, h0]
      rw [ih _ k (fun u2 h2 => h u2 (List.mem_cons_of_mem _ h2))]
      exact alistGet_put_other c (resolveUrl scope u) k r
        (fun he => h u (List.mem_cons_self u rest) he.symm)
    | none =>
      simp only [precacheGo, h0]
      exact ih _ k (fun u2 h2 => h u2 (List.mem_cons_of_mem _ h2))

/-- The manifest entries after `'./offline.html'`. -/
def precacheUrlsTail : List String :=
  ["./manifest.json",
   "./js/app.js", "./js/db-manager.js",
   "./js/hydrolang/hydrolang.js", "./js/hydrolang/181.hydrolang.js",
   "./js/hydrolang/841.hydrolang.js", "./js/hydrolang/972.hydrolang.js",
   "./js/hydrolang/utils/nn.worker.js",
   "./js/hydrolang/hydrolang_functions_schema2.json",
   "./js/hydrolang/hydrolang_datasources_schema.json",
   "./styles/results.css", "./styles/data-visualizer.css", "./styles/exports.css",
   "./icons/icon-192.svg", "./icons/icon-512.svg", "./icons/maskable-icon.svg",
   "./data/app-info.json", "./data/item-index.json", "./data/workflows.json"]

theorem installPrecache_offline (net0 : String → Option SWResponse) (off : SWResponse)
    (hoff : net0 "/offline.html" = some off) :
    cacheMatch (installPrecache "/" net0) "/offline.html" = some off := by
  have hsplit : precacheUrls = ["./", "./index.html"] ++ "./offline.html" :: precacheUrlsTail :=
    rfl
  unfold installPrecache cacheMatch
  rw [hsplit, precacheGo_append]
  rw [show precacheGo "/" net0 ("./offline.html" :: precacheUrlsTail)
        (precacheGo "/" net0 ["./", "./index.html"] []) =
      precacheGo "/" net0 precacheUrlsTail
        (cachePut (precacheGo "/" net0 ["./", "./index.html"] []) "/offline.html" off) from by
    show (match net0 (resolveUrl "/" "./offline.html") with
          | some r => precacheGo "/" net0 precacheUrlsTail
              (cachePut (precacheGo "/" net0 ["./", "./index.html"] [])
                (resolveUrl "/" "./offline.html") r)
          | none => precacheGo "/" net0 precacheUrlsTail
              (precacheGo "/" net0 ["./", "./index.html"] [])) = _
    rw [show resolveUrl "/" "./offline.html" = "/offline.html" from rfl, hoff]]
  rw [precacheGo_get_of_not_mem "/" net0 precacheUrlsTail _ "/offline.html" (by decide)]
  exact alistGet_put_self _ _ _

theorem importPipeline_good (env : ImportEnv) (s0 : Store)
    (hclear : env.clearOk = true)
    (happ : appInfoOk env = true)
    (htx : ∀ k, env.itemTxOk k = true)
    (hpos : 0 < (indexStep env).1.length) :
    (importPipeline env true s0).1 = true ∧
    (importPipeline env true s0).2.1.items =
      putAllBy ItemRecord.uniqueId [] ((indexStep env).1.filterMap (processItem env)) ∧
    (0 < (indexStep env).1.countP (fun m => (processItem env m).isNone) →
      (importPipeline env true s0).2.2 ≠ []) := by
  obtain ⟨⟨s2, errs3⟩, happstep⟩ := (appInfoStep_ok_iff env emptyStore).mpr happ
  obtain ⟨hit2, _⟩ := appInfoStep_items env true emptyStore s2 errs3 happstep
  have hit3 := (workflowsStep_items env true s2).1
  unfold importPipeline
  rw [hclear]
  simp only [clearDatabaseCore_true, happstep, importItemsChunks_all_ok env htx,
    chunks5_flatten, if_pos hpos]
  refine ⟨by trivial, ?_, ?_⟩
  · show putAllBy ItemRecord.uniqueId (workflowsStep env true s2).1.items
        ((indexStep env).1.filterMap (processItem env)) = _
    rw [hit3, hit2]
    rfl
  · intro hcn
    rw [if_pos hcn]
    intro hE
    simp only [List.nil_append, List.append_eq_nil] at hE
    exact List.noConfusion hE.2

/-! ### Concrete fixtures used by witnesses and counterexamples -/

def okJsonResp (j : Json) : FetchResult := .resp { ok := true, body := .json j }

def nonOkFetch : FetchResult := .resp { ok := false, body := .empty }

/-- A fully healthy environment: empty index, complete app info, empty
workflow object. -/
def envBase : ImportEnv :=
  { initOk := true
    clearOk := true
    indexFetch := fun _ => okJsonResp (Json.arr [])
    appInfoFetch := fun _ => okJsonResp (Json.obj [("appInfo", Json.obj
      [("version", Json.str "1.0.0"), ("exportDate", Json.str "2024-01-01"),
       ("name", Json.str "HydroBlox")])])
    appInfoPutOk := true
    appInfoFallbackPutOk := true
    workflowsFetch := fun _ => okJsonResp (Json.obj [])
    wfTxOk := true
    itemFetch := fun _ _ => nonOkFetch
    itemTxOk := fun _ => true
    now := "2024-01-01T00:00:00.000Z" }

/-- The spec's own scenario: two index entries, item `a` succeeds with
`{data:{v:1}}`, item `b` fails every attempt. -/
def envTwoItems : ImportEnv :=
  { envBase with
    indexFetch := fun _ => okJsonResp (Json.arr
      [Json.obj [("id", Json.str "a"), ("workflowId", Json.str "w1")],
       Json.obj [("id", Json.str "b"), ("workflowId", Json.str "w1")]])
    itemFetch := fun idv _ =>
      if idv = Json.str "a" then okJsonResp (Json.obj [("data", Json.obj [("v", Json.num 1)])])
      else nonOkFetch }

/-- One index entry without a `timestamp`, so the stored record receives the
clock reading; all resources succeed. -/
def envIdem1 : ImportEnv :=
  { envBase with
    indexFetch := fun _ => okJsonResp (Json.arr
      [Json.obj [("id", Json.str "a"), ("workflowId", Json.str "w")]])
    itemFetch := fun _ _ => okJsonResp (Json.obj [("data", Json.num 1)])
    now := "2024-01-01T00:00:00.000Z" }

/-- The same remote dataset as `envIdem1`, observed one second later. -/
def envIdem2 : ImportEnv := { envIdem1 with now := "2024-01-01T00:00:01.000Z" }

/-- Workflows resource that is an array whose single entry has a
`workflowId` but no `id`. -/
def envWfArr : ImportEnv :=
  { envBase with
    workflowsFetch := fun _ => okJsonResp (Json.arr
      [Json.obj [("workflowId", Json.str "w7"), ("items", Json.arr [])]]) }

/-- Environment whose index resource answers every attempt with a non-2xx
status. -/
def envIdxDown : ImportEnv := { envBase with indexFetch := fun _ => nonOkFetch }

/-! ### Claims -/

/-- Claim C1: for every import run in which the store opens successfully,
`importData` resolves `true` regardless of failures in clearing, index fetch,
app-info fetch, workflow fetch or item batches; it resolves `false` exactly
when store initialization fails (`!st.ready` and the open rejects) or when
the one unprotected exception — the fallback `storeAppInfo` rejecting after
the app-info step already failed — escapes the run (`appInfoOk env` is the
predicate for step 4 settling).  The statement characterises the result over
every environment, i.e. over every combination of step outcomes.  The
hypothesis `hwf` is the invariant that a ready manager holds an open
connection, which every reachable state satisfies. -/
theorem importData_success_iff (env : ImportEnv) (st : DBM)
    (hwf : st.ready = true → st.dbOpen = true) :
    (importData env st).1 = ((st.ready || env.initOk) && appInfoOk env) := by
  cases hr : st.ready with
  | true =>
    have hd := hwf hr
    simp [importData, hr, hd, importPipeline_fst]
  | false =>
    cases hi : env.initOk with
    | true => simp [importData, hr, hi, importPipeline_fst]
    | false => simp [importData, hr, hi]

theorem importData_success_iff_witness :
    (importData envBase dbmFresh).1 = ((dbmFresh.ready || envBase.initOk) && appInfoOk envBase) :=
  importData_success_iff envBase dbmFresh (by decide)

/-- Claim C2 (counterexample): with every attempt answering a non-2xx
response, `fetchWithRetry` resolves successfully with `undefined` — the final
attempt's failure is not surfaced as an error, contradicting the claim that
it always is. -/
theorem fetchWithRetry_swallows_status_failure :
    fetchWithRetry (fun _ => nonOkFetch) 3 = .ok none ∧
      fetchWithRetry (fun _ => nonOkFetch) 3 ≠ .error () := by decide

/-- Claim C2 (amended): the final attempt's failure is surfaced as an error
only when that attempt throws a transport error (part 1); exhaustion by
non-2xx statuses instead resolves with `undefined` (see the counterexample
and C10).  A 2xx response is returned immediately, never retried: the result
is that response for every oracle agreeing on the earlier attempts, whatever
the later attempts would do (part 2). -/
theorem fetchWithRetry_amended :
    (∀ (oracle : Nat → FetchResult) (n : Nat), 0 < n →
      (∀ k, k < n → isOkResp (oracle k) = false) →
      oracle (n - 1) = FetchResult.err →
      fetchWithRetry oracle n = .error ()) ∧
    (∀ (oracle : Nat → FetchResult) (n i : Nat) (r : Response), i < n →
      (∀ k, k < i → isOkResp (oracle k) = false) →
      oracle i = FetchResult.resp r → r.ok = true →
      fetchWithRetry oracle n = .ok (some r)) := by
  constructor
  · intro oracle n hn hk hl
    exact fetchWithRetryGo_err oracle n 0 hn (fun k hk2 => by simpa using hk k hk2)
      (by simpa using hl)
  · intro oracle n i r hi hk ho hr
    exact fetchWithRetryGo_ok oracle r hr i 0 n hi (fun k hk2 => by simpa using hk k hk2)
      (by simpa using ho)

theorem fetchWithRetry_amended_witness :
    fetchWithRetry (fun i => if i = 2 then FetchResult.err else nonOkFetch) 3 = .error () ∧
    fetchWithRetry (fun i => if i = 1 then okJsonResp (Json.num 7) else nonOkFetch) 3 =
      .ok (some { ok := true, body := .json (Json.num 7) }) :=
  ⟨fetchWithRetry_amended.1 _ 3 (by decide) (by decide) (by decide),
   fetchWithRetry_amended.2 _ 3 1 _ (by decide) (by decide) (by decide) (by decide)⟩

/-- Claim C3: when the index holds entries of which exactly one fails its
fetch/parse (`countP isNone = 1`) and batch transactions are healthy, the run
still resolves `true`; the loop tallies are `succeeded = N - 1` and
`failed = 1` (stated at the canonical empty store — by
`importItemsChunks_all_ok` they do not depend on the store the loop starts
from); the warning list is non-empty; and the items collection afterwards
holds exactly the `N - 1` good records, each retrievable under its
`uniqueId`. -/
theorem import_single_item_failure (env : ImportEnv) (st0 : DBM) (idx : List Json)
    (hready : st0.ready = false) (hinit : env.initOk = true) (hclear : env.clearOk = true)
    (hidx : indexStep env = (idx, []))
    (happ : appInfoOk env = true)
    (htx : ∀ k, env.itemTxOk k = true)
    (hone : idx.countP (fun m => (processItem env m).isNone) = 1)
    (hkeys : ((idx.filterMap (processItem env)).map ItemRecord.uniqueId).Nodup) :
    (importData env st0).1 = true ∧
    (importItemsChunks env true (chunks5 idx) 0 emptyStore).1 = idx.length - 1 ∧
    (importItemsChunks env true (chunks5 idx) 0 emptyStore).2.1 = 1 ∧
    (importData env st0).2.2 ≠ [] ∧
    (importData env st0).2.1.store.items.length = idx.length - 1 ∧
    ∀ r ∈ idx.filterMap (processItem env),
      alistGet (importData env st0).2.1.store.items r.uniqueId = some r := by
  have hwf : st0.ready = true → st0.dbOpen = true := by
    intro h; rw [hready] at h; cases h
  obtain ⟨_, _, hstore, hfst, herrs⟩ := importData_state env st0 (Or.inr hinit) hwf
  have hpos : 0 < idx.length := by
    rcases idx with _ | ⟨m, rest⟩
    · simp at hone
    · simp
  have hpos' : 0 < (indexStep env).1.length := by rw [hidx]; exact hpos
  obtain ⟨hfstP, hitemsP, herrsP⟩ := importPipeline_good env st0.store hclear happ htx hpos'
  have hcnt := importItemsChunks_all_ok env htx (chunks5 idx) 0 emptyStore
  have hsome : idx.countP (fun m => (processItem env m).isSome) = idx.length - 1 := by
    have h2 := List.length_eq_countP_add_countP (fun m => (processItem env m).isNone) idx
    have h3 : idx.countP (fun a => !(processItem env a).isNone) =
        idx.countP (fun a => (processItem env a).isSome) := by
      apply List.countP_congr
      intro a _
      cases processItem env a <;> rfl
    have h4 : idx.countP (fun a => decide ¬((processItem env a).isNone = true)) =
        idx.countP (fun a => !(processItem env a).isNone) := by
      apply List.countP_congr
      intro a _
      cases processItem env a <;> rfl
    omega
  have hlenvalid : (idx.filterMap (processItem env)).length = idx.length - 1 := by
    rw [length_filterMap_eq_countP, hsome]
  refine ⟨by rw [hfst, hfstP], ?_, ?_, ?_, ?_, ?_⟩
  · rw [hcnt, chunks5_flatten, hsome]
  · rw [hcnt, chunks5_flatten, hone]
  · rw [herrs]
    apply herrsP
    rw [hidx, hone]
    exact Nat.zero_lt_one
  · rw [hstore, hitemsP, hidx]
    rw [putAllBy_length ItemRecord.uniqueId _ [] hkeys (fun r _ => rfl)]
    simpa using hlenvalid
  · intro r hr
    rw [hstore, hitemsP, hidx]
    exact putAllBy_get_mem ItemRecord.uniqueId _ [] r hkeys hr

theorem import_single_item_failure_witness :
    (importData envTwoItems dbmFresh).1 = true ∧
    (importItemsChunks envTwoItems true (chunks5 (indexStep envTwoItems).1) 0 emptyStore).1 = 1 ∧
    (importItemsChunks envTwoItems true (chunks5 (indexStep envTwoItems).1) 0 emptyStore).2.1 = 1 ∧
    (importData envTwoItems dbmFresh).2.2 ≠ [] ∧
    (importData envTwoItems dbmFresh).2.1.store.items.length = 1 := by
  have h := import_single_item_failure envTwoItems dbmFresh (indexStep envTwoItems).1
    (by decide) (by decide) (by decide) (by decide) (by decide) (fun k => rfl)
    (by decide) (by decide)
  exact ⟨h.1, h.2.1, h.2.2.1, h.2.2.2.1, h.2.2.2.2.1⟩

/-- Claim C4 (counterexample): an array entry carrying a `workflowId` but no
`id` field is stored under that `workflowId` (`"w7"`), not under the
synthesized `"workflow-0"` the claim prescribes whenever the entry's own `id`
is absent. -/
theorem workflow_array_key_counterexample :
    alistGet (workflowsStep envWfArr true emptyStore).1.workflows "workflow-0" = none ∧
    alistGet (workflowsStep envWfArr true emptyStore).1.workflows "w7" =
      some (mkWorkflowRecord "w7"
        (Json.obj [("workflowId", Json.str "w7"), ("items", Json.arr [])])) := by
  decide

/-- Claim C4 (amended): for an array payload of non-`null` entries with
distinct derived keys, the stored collection after the workflows step holds
exactly one record per valid entry (one with a truthy `items` array), keyed
by the entry's truthy `id`, else its truthy `workflowId`, else
`"workflow-" + index` (`normalizedArraySpec` restates this rule from the
spec's words, corrected only by the `workflowId` fallback); entries lacking
an `items` array are absent, every stored record's `items` field is an array
by construction (`mkWorkflowRecord` sanitizes it through
`Array.isArray ? items : []`), and the step pushes no warning. -/
theorem workflow_array_normalization_amended (env : ImportEnv) (s : Store) (xs : List Json)
    (hf : fetchWithRetry env.workflowsFetch 3 =
      .ok (some { ok := true, body := .json (Json.arr xs) }))
    (hnn : ∀ w ∈ xs, w ≠ Json.null)
    (hnd : ((normalizedArraySpec xs 0).map Prod.fst).Nodup)
    (htx : env.wfTxOk = true)
    (hs : s.workflows = []) :
    (workflowsStep env true s).1.workflows =
      (normalizedArraySpec xs 0).map (fun kv => (kv.1, mkWorkflowRecord kv.1 kv.2)) ∧
    (workflowsStep env true s).2 = [] := by
  rw [workflowsStep_array env s xs hf hnn hnd htx hs]
  exact ⟨rfl, rfl⟩

theorem workflow_array_normalization_amended_witness :
    (workflowsStep envWfArr true emptyStore).1.workflows =
      (normalizedArraySpec [Json.obj [("workflowId", Json.str "w7"), ("items", Json.arr [])]] 0).map
        (fun kv => (kv.1, mkWorkflowRecord kv.1 kv.2)) ∧
    (workflowsStep envWfArr true emptyStore).2 = [] :=
  workflow_array_normalization_amended envWfArr emptyStore
    [Json.obj [("workflowId", Json.str "w7"), ("items", Json.arr [])]]
    (by decide) (by decide) (by decide) (by decide) (by decide)

/-- Claim C5: an item that was successfully imported (its metadata truthy
with a truthy `id`, its fetch resolving a 2xx JSON object payload) is
retrievable afterwards: `getResult(uniqueId)` on the post-run manager
resolves the stored record, whose `uniqueId` equals the query key and whose
`data` field is defined — `(payload.getField "data").getD payload`, i.e. the
payload's own `data` property, defaulting to the whole raw payload exactly
when that property is absent.  Definedness holds by construction: the `data`
field of `ItemRecord` is a total `Json` value. -/
theorem getResult_after_import (env : ImportEnv) (st0 : DBM) (idx : List Json)
    (meta idv payload : Json) (resp : Response)
    (hready : st0.ready = false) (hinit : env.initOk = true) (hclear : env.clearOk = true)
    (hidx : (indexStep env).1 = idx)
    (happ : appInfoOk env = true)
    (htx : ∀ k, env.itemTxOk k = true)
    (hkeys : ((idx.filterMap (processItem env)).map ItemRecord.uniqueId).Nodup)
    (hmem : meta ∈ idx)
    (hm1 : meta.truthy = true) (hm2 : meta.getField "id" = some idv) (hm3 : idv.truthy = true)
    (hfetch : fetchWithRetry (env.itemFetch idv) 2 = .ok (some resp))
    (hro : resp.ok = true) (hbody : resp.body = Body.json payload)
    (hpt : payload.truthy = true) (hpo : payload.isObjType = true) :
    getResultOp (importData env st0).2.1 idv = .ok (some (mkItemRecord env meta idv payload)) ∧
    (mkItemRecord env meta idv payload).uniqueId = idv ∧
    (mkItemRecord env meta idv payload).data = (payload.getField "data").getD payload := by
  have hproc : processItem env meta = some (mkItemRecord env meta idv payload) := by
    unfold processItem
    simp [hm1, hm2, hm3, hfetch, hro, hbody, hpt, hpo]
  have hwf : st0.ready = true → st0.dbOpen = true := by
    intro h; rw [hready] at h; cases h
  obtain ⟨hrdy, _, hstore, _, _⟩ := importData_state env st0 (Or.inr hinit) hwf
  have hpos : 0 < (indexStep env).1.length := by
    rw [hidx]
    exact List.length_pos_of_mem hmem
  obtain ⟨_, hitemsP, _⟩ := importPipeline_good env st0.store hclear happ htx hpos
  have hmemv : mkItemRecord env meta idv payload ∈ idx.filterMap (processItem env) :=
    List.mem_filterMap.mpr ⟨meta, hmem, hproc⟩
  have hget : alistGet (importData env st0).2.1.store.items idv =
      some (mkItemRecord env meta idv payload) := by
    rw [hstore, hitemsP, hidx]
    exact putAllBy_get_mem ItemRecord.uniqueId _ [] _ hkeys hmemv
  refine ⟨?_, rfl, rfl⟩
  unfold getResultOp
  rw [hrdy, if_pos rfl, hget]

theorem getResult_after_import_witness :
    getResultOp (importData envTwoItems dbmFresh).2.1 (Json.str "a") =
      .ok (some (mkItemRecord envTwoItems
        (Json.obj [("id", Json.str "a"), ("workflowId", Json.str "w1")]) (Json.str "a")
        (Json.obj [("data", Json.obj [("v", Json.num 1)])]))) ∧
    (mkItemRecord envTwoItems
        (Json.obj [("id", Json.str "a"), ("workflowId", Json.str "w1")]) (Json.str "a")
        (Json.obj [("data", Json.obj [("v", Json.num 1)])])).uniqueId = Json.str "a" ∧
    (mkItemRecord envTwoItems
        (Json.obj [("id", Json.str "a"), ("workflowId", Json.str "w1")]) (Json.str "a")
        (Json.obj [("data", Json.obj [("v", Json.num 1)])])).data =
      ((Json.obj [("data", Json.obj [("v", Json.num 1)])]).getField "data").getD
        (Json.obj [("data", Json.obj [("v", Json.num 1)])]) :=
  getResult_after_import envTwoItems dbmFresh (indexStep envTwoItems).1
    (Json.obj [("id", Json.str "a"), ("workflowId", Json.str "w1")]) (Json.str "a")
    (Json.obj [("data", Json.obj [("v", Json.num 1)])])
    { ok := true, body := .json (Json.obj [("data", Json.obj [("v", Json.num 1)])]) }
    (by decide) (by decide) (by decide) (by decide) (by decide) (fun k => rfl)
    (by decide) (by decide) (by decide) (by decide) (by decide) (by decide) (by decide)
    (by decide) (by decide) (by decide)

/-- Claim C6 (counterexample): two runs over the identical remote dataset
(`envIdem2` differs from `envIdem1` only in the clock reading) do not leave
the same store contents, because an index entry without a `timestamp` is
stamped with `new Date().toISOString()` at import time. -/
theorem import_twice_store_differs :
    (importData envIdem2 (importData envIdem1 dbmFresh).2.1).2.1.store ≠
      (importData envIdem1 dbmFresh).2.1.store := by decide

/-- Claim C6 (amended): for a fixed remote dataset and a fixed clock reading
(one `ImportEnv`), with clearing succeeding, running `importData` twice in
succession leaves exactly the store contents of running it once: the
successful clear makes the run's final store a function of the environment
alone, independent of the store it starts from. -/
theorem import_twice_same_store (env : ImportEnv) (st0 : DBM)
    (hwf : st0.ready = true → st0.dbOpen = true)
    (hinit : st0.ready = true ∨ env.initOk = true)
    (hclear : env.clearOk = true) :
    (importData env (importData env st0).2.1).2.1.store = (importData env st0).2.1.store := by
  obtain ⟨hr1, hd1, hs1, _, _⟩ := importData_state env st0 hinit hwf
  obtain ⟨_, _, hs2, _, _⟩ :=
    importData_state env (importData env st0).2.1 (Or.inl hr1) (fun _ => hd1)
  rw [hs2, hs1,
    importPipeline_clear_const env hclear ((importPipeline env true st0.store).2.1) st0.store]

theorem import_twice_same_store_witness :
    (importData envBase (importData envBase dbmFresh).2.1).2.1.store =
      (importData envBase dbmFresh).2.1.store :=
  import_twice_same_store envBase dbmFresh (by decide) (Or.inr (by decide)) (by decide)

/-- Claim C7: a non-script/style request with no cache entry, a failing
network and navigation mode is answered with the precached offline document:
the dispatched response is exactly the `offline.html` bytes the install
handler cached (scope `"/"`, so `caches.match('/offline.html')` resolves to
the same key the precache of `'./offline.html'` wrote). -/
theorem offline_fallback_on_navigation (net0 net : String → Option SWResponse)
    (req : SWRequest) (off : SWResponse)
    (hss : isScriptOrStyle req = false)
    (hmode : req.mode = "navigate")
    (hoff : net0 "/offline.html" = some off)
    (hmiss : cacheMatch (installPrecache "/" net0) req.url = none)
    (hnet : net req.url = none) :
    swDispatch "/" (installPrecache "/" net0) net req = some (some off) := by
  unfold swDispatch firstRespond cacheFirstListener
  simp only [hss, Bool.false_eq_true, if_false, hmiss, hnet, hmode, if_pos rfl]
  rw [show resolveUrl "/" "/offline.html" = "/offline.html" from rfl]
  rw [installPrecache_offline net0 off hoff]
  rfl

def offReq : SWRequest := { url := "/results.html", destination := "document", mode := "navigate" }

def netAll : String → Option SWResponse := fun u => some { body := "asset:" ++ u }

theorem offline_fallback_on_navigation_witness :
    swDispatch "/" (installPrecache "/" netAll) (fun _ => none) offReq =
      some (some { body := "asset:/offline.html" }) :=
  offline_fallback_on_navigation netAll (fun _ => none) offReq { body := "asset:/offline.html" }
    (by decide) (by decide) (by decide) (by decide) (by decide)

def dataReq : SWRequest := { url := "/data/workflows.json", destination := "", mode := "cors" }

/-- Claim C8 (code bug): the first fetch listener calls `respondWith` on
every event, so for a `/data/workflows.json` request with an empty cache and
a failing network the committed response is the cache-first listener's
`undefined` (a network error) — the second listener's `respondWith` throws
`InvalidStateError` and its synthesized `Response(JSON.stringify({}))` is
never delivered, even though that listener's own logic (second conjunct)
would produce it. -/
theorem data_listener_shadowed :
    swDispatch "/" [] (fun _ => none) dataReq = some none ∧
    dataListener [] (fun _ => none) dataReq = some (some { body := "\x7b\x7d" }) := by decide

/-- Claim C9 (counterexample): `storeAppInfo` invoked on a manager that was
never initialized rejects with the TypeError from `this.db.transaction` on a
`null` handle, not with the NotReady error the claim names for every store
operation. -/
theorem write_before_init_type_error :
    storeAppInfoOp envBase dbmFresh (Json.obj []) = .error .typeError ∧
    DBError.typeError ≠ DBError.notReady := by decide

/-- Claim C9 (amended): before initialization has succeeded, the query
operations `getWorkflows`, `getWorkflowItems`, `getResult` and
`clearDatabase` fail with NotReady — they perform the explicit ready check —
while the write operations `storeItemBatch`, `storeWorkflows` and
`storeAppInfo` perform no such check and instead fail with the TypeError
thrown by `this.db.transaction` on the null connection. -/
theorem ops_before_init_amended (env : ImportEnv) (st : DBM) (j wid k : Json)
    (wfs : List (String × Json)) (batch : List Json) (i : Nat)
    (hr : st.ready = false) (hd : st.dbOpen = false) :
    getWorkflowsOp st = .error .notReady ∧
    getWorkflowItemsOp st wid = .error .notReady ∧
    getResultOp st k = .error .notReady ∧
    clearDatabaseOp env st = .error .notReady ∧
    storeAppInfoOp env st j = .error .typeError ∧
    storeWorkflowsOp env st wfs = .error .typeError ∧
    storeItemBatchOp env st i batch = .error .typeError := by
  refine ⟨?_, ?_, ?_, ?_, ?_, ?_, ?_⟩
  · simp [getWorkflowsOp, hr]
  · simp [getWorkflowItemsOp, hr]
  · simp [getResultOp, hr]
  · simp [clearDatabaseOp, hr]
  · simp [storeAppInfoOp, storeAppInfoCore, hd, Except.map]
  · simp [storeWorkflowsOp, storeWorkflowsCore, hd, Except.map]
  · simp [storeItemBatchOp, storeItemBatchCore, hd, Except.map]

theorem ops_before_init_amended_witness :
    getWorkflowsOp dbmFresh = .error .notReady ∧
    getWorkflowItemsOp dbmFresh (Json.str "w1") = .error .notReady ∧
    getResultOp dbmFresh (Json.str "a") = .error .notReady ∧
    clearDatabaseOp envBase dbmFresh = .error .notReady ∧
    storeAppInfoOp envBase dbmFresh (Json.obj []) = .error .typeError ∧
    storeWorkflowsOp envBase dbmFresh [] = .error .typeError ∧
    storeItemBatchOp envBase dbmFresh 0 [] = .error .typeError :=
  ops_before_init_amended envBase dbmFresh (Json.obj []) (Json.str "w1") (Json.str "a")
    [] [] 0 (by decide) (by decide)

/-- Claim C10: when every attempt within the budget settles with a non-2xx
HTTP response and none throws, `fetchWithRetry` resolves successfully with
`undefined` (`.ok none`) — neither a Response nor a rejection — and
`importData`'s index step, which null-checks the result
(`!itemIndexResponse || !itemIndexResponse.ok`), treats it as a failure and
degrades to the empty index with a warning. -/
theorem fetch_all_non_ok_resolves_none (oracle : Nat → FetchResult) (n : Nat) (env : ImportEnv)
    (h1 : ∀ k, k < n → isNonOkResp (oracle k) = true)
    (h2 : ∀ k, k < 3 → isNonOkResp (env.indexFetch k) = true) :
    fetchWithRetry oracle n = .ok none ∧
    indexStep env = ([], ["Failed to load item index"]) := by
  have hf : fetchWithRetry env.indexFetch 3 = .ok none :=
    fetchWithRetryGo_none env.indexFetch 3 0 (fun k hk => by simpa using h2 k hk)
  refine ⟨fetchWithRetryGo_none oracle n 0 (fun k hk => by simpa using h1 k hk), ?_⟩
  unfold indexStep
  simp only [hf]

theorem fetch_all_non_ok_resolves_none_witness :
    fetchWithRetry (fun _ => nonOkFetch) 5 = .ok none ∧
    indexStep envIdxDown = ([], ["Failed to load item index"]) :=
  fetch_all_non_ok_resolves_none (fun _ => nonOkFetch) 5 envIdxDown (by decide) (by decide)

end HB
